import Mathlib

/-!
Verification of the dt-mergebot PR state derivation engine (src/pr-info.ts).

This file gives a shallow embedding of the derivation engine found in
src/pr-info.ts and proves the frozen claims about it.  The embedding follows
the TypeScript source line by line:

  * asynchronous code is modelled as sequential pure code; the only exception
    that can escape the orchestrator (a JSON.parse throw inside the tslint
    validator) is modelled with the Except monad;
  * GraphQL nullability is modelled with Option; a null nodes list behaves
    exactly like an empty one in every use site of the source (they are always
    wrapped by noNulls or a null-propagating access), so lists of nodes are
    modelled as List (Option _);
  * JS Date values always originate from ISO-8601 UTC timestamp strings of a
    fixed width in this code base, for which lexicographic string comparison
    agrees with chronological comparison (the source itself relies on this in
    getLastCommentishActivityDate, which compares dates with a string sort),
    so dates are modelled as their source strings compared lexicographically;
  * external collaborators that are not part of the repository (file fetching,
    the definitelytyped-header-parser, the npm download count source, the JSON
    builtins of the platform, the bot-account predicate and the clock) are
    modelled as components of an explicit environment, mirroring the
    collaborator contracts of the specification;
  * JS string manipulation is modelled by structurally recursive functions on
    the underlying character lists, so every definition evaluates inside the
    kernel.
-/

namespace DTMergebot

/-! ## Generic JS-semantics helpers -/

/-- Model of the source helper noNulls: drop null and undefined entries. -/
def noNulls (arr : List (Option α)) : List α := arr.filterMap id

/-- Model of adding an element to a JS Set: insertion order is kept and an
element already present is not moved nor duplicated. -/
def setAdd (l : List String) (a : String) : List String :=
  if l.contains a then l else l ++ [a]

/-- Model of JS Map.set: updating an existing key keeps its insertion
position, a new key is appended.  Keys are unique in every map built by the
source (maps only grow through set), so updating the first occurrence is the
JS behavior. -/
def mapSet : List (String × α) → String → α → List (String × α)
  | [], k, v => [(k, v)]
  | kv :: m, k, v => if kv.1 == k then (k, v) :: m else kv :: mapSet m k v

/-- Model of JS Map.get restricted to the association-list model. -/
def mapLookup (m : List (String × α)) (k : String) : Option α :=
  (m.find? (fun kv => kv.1 == k)).map (fun kv => kv.2)

/-- Modelled from the spec: findLast of util/util (not under src/), described
in the spec as the reusable find-last-element-satisfying-a-predicate scan over
an ordered sequence. -/
def findLast (l : List α) (p : α → Bool) : Option α :=
  match l with
  | [] => none
  | x :: xs =>
    match findLast xs p with
    | some y => some y
    | none => if p x then some x else none

/-- Modelled from the spec: forEachReverse of util/util (not under src/); the
spec uses it to scan a list newest-first and keep the first defined result of
the callback. -/
def forEachReverse (l : List α) (f : α → Option β) : Option β :=
  match l with
  | [] => none
  | x :: xs =>
    match forEachReverse xs f with
    | some y => some y
    | none => f x

/-- Lift a predicate to nullable entries; a null entry never satisfies it,
matching every predicate passed to findLast in the source. -/
def onSome (p : α → Bool) : Option α → Bool
  | some x => p x
  | none => false

/-- Model of JS String.prototype.split with a one-character separator. -/
def splitChar (sep : Char) : List Char → List (List Char)
  | [] => [[]]
  | c :: cs =>
    match splitChar sep cs with
    | [] => [[]]
    | g :: gs => if c = sep then [] :: g :: gs else (c :: g) :: gs

/-- Characters treated as whitespace by JS String.prototype.trim (the subset
that can occur in the inputs of this code base). -/
def isJsSpace (c : Char) : Bool :=
  c == ' ' || c == '\t' || c == '\n' || c == '\r'

/-- Model of JS String.prototype.trim on character lists. -/
def jsTrimList (l : List Char) : List Char :=
  ((l.dropWhile isJsSpace).reverse.dropWhile isJsSpace).reverse

/-- Model of JS String.prototype.toLowerCase on character lists (ASCII, which
covers the literal "ready to merge" comparison in the source). -/
def jsLower (l : List Char) : List Char := l.map Char.toLower

/-- Model of JS String.prototype.includes on character lists. -/
def containsSubList (needle : List Char) : List Char → Bool
  | [] => needle.isEmpty
  | c :: cs => needle.isPrefixOf (c :: cs) || containsSubList needle cs

/-- Model of Math.min spread over a list; the empty case is unreachable in the
source (the argument is a four-element array literal). -/
def mathMin : List Int → Int
  | [] => 0
  | x :: xs => xs.foldl min x

/-! ## Data model: enumerations of the GraphQL schema and of the source -/

/-- Model of the string literal union DangerLevel of the source. -/
inductive DangerLevel where
  | ScopedAndTested
  | ScopedAndUntested
  | ScopedAndConfiguration
  | MultiplePackagesEdited
  | Infrastructure
  deriving DecidableEq, Repr, Inhabited

/-- Model of the string literal union PopularityLevel of the source;
wellLiked stands for the string "Well-liked by everyone". -/
inductive PopularityLevel where
  | wellLiked
  | Popular
  | Critical
  deriving DecidableEq, Repr, Inhabited

/-- Modelled from the spec: the CIResult enum of util/CIResult (not under
src/); the spec names the four outcomes Pass, Fail, Pending and Missing. -/
inductive CIResult where
  | Pass
  | Fail
  | Pending
  | Missing
  deriving DecidableEq, Repr, Inhabited

/-- PR state of the GraphQL schema; the source only compares against OPEN. -/
inductive PullRequestState where
  | OPEN
  | CLOSED
  | MERGED
  deriving DecidableEq, Repr, Inhabited

/-- Review states of the GraphQL schema used by the source. -/
inductive PullRequestReviewState where
  | PENDING
  | COMMENTED
  | APPROVED
  | CHANGES_REQUESTED
  | DISMISSED
  deriving DecidableEq, Repr, Inhabited

/-- Author associations of the GraphQL schema used by the source. -/
inductive CommentAuthorAssociation where
  | MEMBER
  | OWNER
  | COLLABORATOR
  | CONTRIBUTOR
  | FIRST_TIME_CONTRIBUTOR
  | FIRST_TIMER
  | NONE
  deriving DecidableEq, Repr, Inhabited

/-- Check conclusions of the GraphQL schema used by the source. -/
inductive CheckConclusionState where
  | ACTION_REQUIRED
  | CANCELLED
  | FAILURE
  | NEUTRAL
  | SKIPPED
  | STALE
  | SUCCESS
  | TIMED_OUT
  deriving DecidableEq, Repr, Inhabited

/-- Mergeable states of the GraphQL schema; the source only compares against
CONFLICTING. -/
inductive MergeableState where
  | CONFLICTING
  | MERGEABLE
  | UNKNOWN
  deriving DecidableEq, Repr, Inhabited

/-- Abstract value domain for the platform JSON builtins.  JSON.parse and
JSON.stringify are ECMAScript builtins external to the repository (and involve
IEEE doubles), so they are modelled as environment functions over this
carrier; only a string-valued single-field object is ever built by the
source. -/
inductive JsValue where
  | str (s : String)
  | obj (fields : List (String × JsValue))

/-! ## Data model: snapshot structures -/

/-- One check suite node on the head commit. -/
structure CheckSuite where
  appName : Option String
  conclusion : Option CheckConclusionState
  url : String
  deriving Repr, Inhabited

/-- The commit data used by the source. -/
structure Commit where
  oid : String
  abbreviatedOid : String
  pushedDate : String
  checkSuites : List (Option CheckSuite)
  deriving Repr, Inhabited

/-- A commit node of the commits connection. -/
structure CommitNode where
  commit : Commit
  deriving Repr, Inhabited

/-- A changed-file node. -/
structure FileNode where
  path : String
  deriving Repr, Inhabited

/-- The commit a review was submitted against. -/
structure ReviewCommit where
  oid : String
  abbreviatedOid : String
  deriving Repr, Inhabited

/-- A comment attached to a review thread. -/
structure ReviewComment where
  author : Option String
  createdAt : String
  deriving Repr, Inhabited

/-- A review node; author is the login of the review author (null when the
account is gone, and the empty string models a falsy login). -/
structure Review where
  author : Option String
  commit : Option ReviewCommit
  submittedAt : String
  state : PullRequestReviewState
  authorAssociation : CommentAuthorAssociation
  comments : List (Option ReviewComment)
  deriving Repr, Inhabited

/-- An issue-level comment node of the comments connection. -/
structure IssueCommentNode where
  author : Option String
  body : String
  deriving Repr, Inhabited

/-- Timeline event nodes; only the typenames inspected by the source are
distinguished, every other node is otherEvent. -/
inductive TimelineItem where
  | issueComment (author : Option String) (createdAt : String)
  | reopenedEvent (createdAt : String)
  | readyForReviewEvent (createdAt : String)
  | movedColumnsInProjectEvent (actor : Option String) (createdAt : String)
  | otherEvent
  deriving DecidableEq, Repr, Inhabited

/-- Timestamp of a timeline item (otherEvent is never selected by any of the
predicates of the source, its timestamp is irrelevant). -/
def TimelineItem.createdAtOf : TimelineItem → String
  | .issueComment _ d => d
  | .reopenedEvent d => d
  | .readyForReviewEvent d => d
  | .movedColumnsInProjectEvent _ d => d
  | .otherEvent => ""

/-- The raw pull request snapshot (PR_repository_pullRequest as consumed by
the source); author is the login of the PR author. -/
structure PullRequest where
  number : Nat
  author : Option String
  headRefOid : String
  state : PullRequestState
  isDraft : Bool
  commits : List (Option CommitNode)
  files : List (Option FileNode)
  timelineItems : List (Option TimelineItem)
  reviews : List (Option Review)
  comments : List (Option IssueCommentNode)
  mergeable : MergeableState
  authorAssociation : CommentAuthorAssociation
  deriving Repr, Inhabited

/-- A contributor entry of a parsed owner header. -/
structure Contributor where
  githubUsername : Option String
  deriving Repr, Inhabited

/-- A parsed owner header (result shape of the header-parser collaborator). -/
structure Header where
  contributors : List Contributor
  deriving Repr, Inhabited

/-- The collaborator environment: everything the derivation engine consumes
that is external to src/pr-info.ts, following the collaborator contracts of
the spec.  daysSince and the bot predicate live in util/util of the
repository (not under src/) and are treated as opaque collaborators, exactly
as the spec describes them. -/
structure Env where
  fetchFile : String → Option Nat → Option String
  jsonParse : String → Except String JsValue
  jsonStringify : JsValue → String
  /-- Platform Function constructor reached through the inherited
  constructor property in configOK: none when the text parses as a
  function body (the call then returns a function, which is truthy), some
  message for the SyntaxError it throws. -/
  functionCtor : String → Option String
  parseHeader : String → Except String Header
  getDownloads : List String → List (String × Int)
  daysSince : String → String → Int
  authorNotBot : Option String → Bool
  now : String

/-! ## File classifier

Model of the regex of categorizeFile,
  el patron: types\/(.*?)\/.*?[^\/](?:\.(d\.ts|tsx?|md))? anchored at both
ends.  The lazy quantifiers make the first capture group the shortest prefix
admitting a match and make the optional suffix group match at the earliest
possible position; a dot matches every character except a line feed, while
the negated class also matches a line feed.  findTail models the part after
the package segment, findSplit the choice of the package segment. -/

/-- Kinds of classified files (FileKind of the source). -/
inductive FileKind where
  | test
  | definition
  | markdown
  | packageMeta
  | packageMetaOk
  | infrastructure
  deriving DecidableEq, Repr, Inhabited

/-- FileInfo of the source. -/
structure FileInfo where
  path : String
  kind : FileKind
  package : Option String
  deriving DecidableEq, Repr, Inhabited

/-- The four recognized terminal suffixes, with their leading dot. -/
def suffixAlts : List (List Char) :=
  [".d.ts".data, ".ts".data, ".tsx".data, ".md".data]

/-- Match of the regex part after the second slash: a lazy dot-star, one
character that is not a slash, then optionally a recognized suffix, then the
end.  Returns none when no match exists, some none for a match without a
suffix group and some ext for a match capturing ext (without its dot).  The
scan takes the earliest feasible position, matching the lazy quantifier, and
cannot advance past a line feed because the lazy dot-star does not match
one. -/
def findTail : List Char → Option (Option (List Char))
  | [] => none
  | c :: cs =>
    if c ≠ '/' ∧ suffixAlts.contains cs then some (some cs.tail)
    else if c ≠ '/' ∧ cs = [] then some none
    else if c = '\n' then none
    else findTail cs

/-- Choice of the package capture group: the shortest prefix followed by a
slash whose remainder matches the tail pattern wins (lazy quantifier); the
group itself may contain slashes but no line feed. -/
def findSplit : List Char → Option (List Char × Option (List Char))
  | [] => none
  | c :: cs =>
    if c = '/' then
      match findTail cs with
      | some ext => some ([], ext)
      | none => (findSplit cs).map (fun ge => (c :: ge.1, ge.2))
    else if c = '\n' then none
    else (findSplit cs).map (fun ge => (c :: ge.1, ge.2))

/-- Full model of the categorizeFile regex: on a match, returns the package
capture group and the optional suffix capture group. -/
def parsePath (path : String) : Option (String × Option String) :=
  if "types/".data.isPrefixOf path.data then
    (findSplit (path.data.drop 6)).map
      (fun ge => (String.mk ge.1, ge.2.map String.mk))
  else none

/-- Model of path.replace with the greedy pattern dot-star-slash: the
basename after the last slash.  For every path that can reach configOK (a
regex match without a suffix group) any line feed can only be the final
character, so taking the segment after the last slash agrees with the JS
replace semantics on all reachable inputs. -/
def basenameOf (path : String) : String :=
  match (splitChar '/' path.data).getLast? with
  | some l => String.mk l
  | none => path

/-- Validator registered for OTHER_FILES.txt: non-empty contents whose every
non-empty line has slash-separated parts that are non-empty and not made of
dots only.  This rule never throws. -/
def otherFilesOK (contents : String) : Bool :=
  !contents.data.isEmpty && (splitChar '\n' contents.data).all (fun line =>
    line.isEmpty || (splitChar '/' line).all (fun part =>
      !part.isEmpty && !(part.all (fun ch => ch == '.'))))

/-- The canonical tslint object of the source, JSON.stringify of which is the
comparison target. -/
def tslintCanonical : JsValue := .obj [("extends", .str "dtslint/dt.json")]

/-- Validator registered for tslint.json: JSON.parse the contents (which can
throw, and the source does not catch it) and compare the restringified value
with the canonical object. -/
def tslintOK (jsonParse : String → Except String JsValue)
    (jsonStringify : JsValue → String) (contents : String) :
    Except String Bool :=
  (jsonParse contents).map
    (fun v => jsonStringify v == jsonStringify tslintCanonical)

/-- String-keyed properties visible on the configOK function object through
the JS in operator.  The source tests (basename in configOK) where configOK
is an arrow function carrying two assigned validator properties; the in
operator of ECMAScript also finds the own function properties name and
length and every string-keyed property inherited from Function.prototype
(apply, arguments, bind, call, caller, constructor, toString) and from
Object.prototype (hasOwnProperty, isPrototypeOf, propertyIsEnumerable,
toLocaleString, toString, valueOf, the __proto__ accessor and the four
legacy accessor helpers). -/
def configOKStringKeys : List String :=
  ["OTHER_FILES.txt", "tslint.json", "name", "length", "apply",
   "arguments", "bind", "call", "caller", "constructor", "toString",
   "toLocaleString", "valueOf", "hasOwnProperty", "isPrototypeOf",
   "propertyIsEnumerable", "__proto__", "__defineGetter__",
   "__defineSetter__", "__lookupGetter__", "__lookupSetter__"]

/-- Own string-keyed properties of the configOK function object: the two
assigned validators plus the own function properties length and name (an
arrow function has no own prototype, caller or arguments property). -/
def configOKOwnKeys : List String :=
  ["OTHER_FILES.txt", "tslint.json", "length", "name"]

/-- Accessor properties reachable on the prototype chain of the configOK
function object: the __proto__ accessor of Object.prototype and the two
restricted accessors caller and arguments of Function.prototype. -/
def prototypeAccessorKeys : List String :=
  ["__proto__", "caller", "arguments"]

/-- Outcome of reading configOK[basename] and calling it on the fetched
text, for a basename that passed the in check, following the specified
ECMAScript behavior of each property (the message text of a thrown
TypeError is engine specific; the model only records that an exception
escapes classification):
  * the two registered validators run as written in the source;
  * name and length hold non-callable values (a string and a number), so
    the call throws;
  * caller and arguments are the restricted accessors of Function.prototype
    whose very property read throws;
  * apply and call re-enter configOK itself with an undefined path, whose
    path.replace throws inside the re-entered call, rejecting the returned
    promise;
  * bind returns a bound function, toString and toLocaleString produce the
    source text of the function and valueOf returns the function itself:
    all truthy, hence OK;
  * constructor is the Function constructor, which parses the contents as a
    function body (modelled by the external functionCtor collaborator:
    success yields a function, hence truthy; failure throws a SyntaxError);
  * hasOwnProperty and propertyIsEnumerable test the contents against the
    own (respectively own enumerable) property names of the function
    object;
  * isPrototypeOf applied to a primitive string is false, and calling the
    Function.prototype object obtained from the __proto__ getter returns
    undefined, hence not OK;
  * __defineGetter__ and __defineSetter__ throw because the absent second
    argument is not callable, while __lookupGetter__ and __lookupSetter__
    return an accessor function (truthy) exactly for the accessor keys of
    the prototype chain. -/
def configOKApply (jsonParse : String → Except String JsValue)
    (jsonStringify : JsValue → String)
    (functionCtor : String → Option String)
    (basename text : String) : Except String Bool :=
  match basename with
  | "OTHER_FILES.txt" => .ok (otherFilesOK text)
  | "tslint.json" => tslintOK jsonParse jsonStringify text
  | "name" => .error "TypeError: configOK[basename] is not a function"
  | "length" => .error "TypeError: configOK[basename] is not a function"
  | "caller" =>
    .error "TypeError: restricted function properties are not accessible"
  | "arguments" =>
    .error "TypeError: restricted function properties are not accessible"
  | "apply" =>
    .error "TypeError: cannot read properties of undefined"
  | "call" =>
    .error "TypeError: cannot read properties of undefined"
  | "bind" => .ok true
  | "toString" => .ok true
  | "toLocaleString" => .ok true
  | "valueOf" => .ok true
  | "constructor" =>
    match functionCtor text with
    | none => .ok true
    | some e => .error e
  | "hasOwnProperty" => .ok (configOKOwnKeys.contains text)
  | "propertyIsEnumerable" =>
    .ok (["OTHER_FILES.txt", "tslint.json"].contains text)
  | "isPrototypeOf" => .ok false
  | "__proto__" => .ok false
  | "__defineGetter__" => .error "TypeError: Getter must be a function"
  | "__defineSetter__" => .error "TypeError: Setter must be a function"
  | "__lookupGetter__" => .ok (prototypeAccessorKeys.contains text)
  | "__lookupSetter__" => .ok (prototypeAccessorKeys.contains text)
  | _ => .ok false

/-- Model of configOK: a basename that is no property of the function
object (eliminated by the in check) is not OK and the contents are never
fetched; missing contents are not OK; otherwise the property named by the
basename is read and called on the contents (configOKApply), which for the
two registered basenames is the written validation and for the function and
prototype properties is the ECMAScript behavior of the hit property. -/
def configOK (jsonParse : String → Except String JsValue)
    (jsonStringify : JsValue → String)
    (functionCtor : String → Option String) (path : String)
    (getContents : Unit → Option String) : Except String Bool :=
  if configOKStringKeys.contains (basenameOf path) then
    match getContents () with
    | none => .ok false
    | some text =>
      configOKApply jsonParse jsonStringify functionCtor
        (basenameOf path) text
  else .ok false

/-- Model of categorizeFile: non-matching paths are infrastructure with no
package; a matched suffix selects the kind; a match without a suffix is a
configuration file validated by configOK. -/
def categorizeFile (jsonParse : String → Except String JsValue)
    (jsonStringify : JsValue → String)
    (functionCtor : String → Option String) (path : String)
    (getContents : Unit → Option String) : Except String FileInfo :=
  match parsePath path with
  | none => .ok { path := path, kind := .infrastructure, package := none }
  | some (pkg, suffix) =>
    match suffix.getD "" with
    | "d.ts" => .ok { path := path, kind := .definition, package := some pkg }
    | "ts" => .ok { path := path, kind := .test, package := some pkg }
    | "tsx" => .ok { path := path, kind := .test, package := some pkg }
    | "md" => .ok { path := path, kind := .markdown, package := some pkg }
    | _ =>
      (configOK jsonParse jsonStringify functionCtor path
          getContents).map (fun ok =>
        { path := path,
          kind := if ok then .packageMetaOk else .packageMeta,
          package := some pkg })

/-- Model of getPackagesTouched: the deduplicated first-occurrence list of
the defined package tags. -/
def getPackagesTouched (files : List FileInfo) : List String :=
  (files.filterMap (fun f => f.package)).foldl setAdd []

/-! ## Danger and popularity classifiers -/

/-- Model of getDangerLevel. -/
def getDangerLevel (categorizedFiles : List FileInfo) : DangerLevel :=
  if categorizedFiles.any (fun f => f.kind == .infrastructure) then
    .Infrastructure
  else
    let packagesTouched := getPackagesTouched categorizedFiles
    if packagesTouched.length = 0 then .Infrastructure
    else if packagesTouched.length > 1 then .MultiplePackagesEdited
    else if categorizedFiles.any (fun f => f.kind == .packageMeta) then
      .ScopedAndConfiguration
    else if categorizedFiles.any (fun f => f.kind == .test) then
      .ScopedAndTested
    else .ScopedAndUntested

/-- Definition following the words of the spec for the danger level: the
highest-priority match in the fixed order infrastructure file present, zero
packages touched, more than one distinct package, not-OK configuration file
present, test file present, otherwise untested.  Distinctness is expressed
with the Mathlib dedup of the touched packages, independently of the JS Set
mechanism of the source. -/
def dangerLevelSpec (files : List FileInfo) : DangerLevel :=
  if files.any (fun f => f.kind == .infrastructure) then .Infrastructure
  else if (files.filterMap (fun f => f.package)).dedup.length = 0 then
    .Infrastructure
  else if 1 < (files.filterMap (fun f => f.package)).dedup.length then
    .MultiplePackagesEdited
  else if files.any (fun f => f.kind == .packageMeta) then
    .ScopedAndConfiguration
  else if files.any (fun f => f.kind == .test) then .ScopedAndTested
  else .ScopedAndUntested

/-- Popularity threshold above which a package is critical. -/
def CriticalPopularityThreshold : Int := 5000000

/-- Popularity threshold above which a package is popular. -/
def NormalPopularityThreshold : Int := 200000

/-- Loop body of getPopularityLevelFromDownloads: a critical package short
circuits, a popular one raises the accumulator and the scan continues. -/
def popularityLoop (acc : PopularityLevel) :
    List (String × Int) → PopularityLevel
  | [] => acc
  | (_, downloads) :: rest =>
    if downloads > CriticalPopularityThreshold then .Critical
    else if downloads > NormalPopularityThreshold then
      popularityLoop .Popular rest
    else popularityLoop acc rest

/-- Model of getPopularityLevelFromDownloads over the entries of the
downloads record (for-in over a JS object visits each key once, modelled as
an association list). -/
def getPopularityLevelFromDownloads
    (downloadsPerPackage : List (String × Int)) : PopularityLevel :=
  popularityLoop .wellLiked downloadsPerPackage

/-! ## Owner resolver -/

/-- OwnerInfo of the source. -/
structure OwnerInfo where
  anyPackageIsNew : Bool
  allOwners : List String
  error : Option String
  deriving Repr, Inhabited

/-- Model of getOwnersForPackage: fetch at most 10240 bytes of the entry
declaration file of the package at the base revision; absence is the defined
outcome ok none, and a header-parser throw is the error path.  Contributors
without a GitHub user name are filtered out. -/
def getOwnersForPackage (env : Env) (packageName : String) :
    Except String (Option (List String)) :=
  match env.fetchFile ("master:types/" ++ packageName ++ "/index.d.ts")
      (some 10240) with
  | none => .ok none
  | some content =>
    (env.parseHeader content).map (fun parsed =>
      some (parsed.contributors.filterMap (fun c => c.githubUsername)))

/-- Loop of getOwnersOfPackages: sequential over the packages, breaking at
the first parser throw with the message built by the source, marking the
any-package-is-new flag on absence and accumulating owners into the set
otherwise. -/
def ownersLoop (env : Env) : List String → List String → Bool → OwnerInfo
  | [], acc, anyNew =>
    { anyPackageIsNew := anyNew, allOwners := acc, error := none }
  | p :: ps, acc, anyNew =>
    match getOwnersForPackage env p with
    | .error e =>
      { anyPackageIsNew := anyNew, allOwners := acc,
        error := some ("error parsing owners: " ++ e) }
    | .ok none => ownersLoop env ps acc true
    | .ok (some owners) => ownersLoop env ps (owners.foldl setAdd acc) anyNew

/-- Model of getOwnersOfPackages. -/
def getOwnersOfPackages (env : Env) (packages : List String) : OwnerInfo :=
  ownersLoop env packages [] false

/-! ## Review reconciler -/

/-- Approval flag bits of the source (a numeric enum combined with bitwise
or): Other = 1, Owner = 2, Maintainer = 4, None = 0. -/
def ApprovalFlags.None : Nat := 0

/-- Bit recorded for an approval that is neither a maintainer nor an owner
approval. -/
def ApprovalFlags.Other : Nat := 1

/-- Bit recorded for an approval by a listed package owner. -/
def ApprovalFlags.Owner : Nat := 2

/-- Bit recorded for an approval by a repository member or owner. -/
def ApprovalFlags.Maintainer : Nat := 4

/-- An entry of reviewersWithStaleReviews. -/
structure StaleReviewEntry where
  reviewer : String
  reviewedAbbrOid : String
  date : String
  deriving DecidableEq, Repr, Inhabited

/-- The values returned by analyzeReviews. -/
structure ReviewAnalysis where
  lastReviewDate : Option String
  reviewersWithStaleReviews : List StaleReviewEntry
  approvalFlags : Nat
  isChangesRequested : Bool
  deriving DecidableEq, Repr, Inhabited

/-- Loop state of analyzeReviews. -/
structure ReviewScanState where
  hasUpToDateReview : List String
  staleReviewAuthorsByCommit : List (String × String × String)
  lastReviewDate : Option String
  isChangesRequested : Bool
  approvalFlags : Nat
  deriving DecidableEq, Repr, Inhabited

/-- Initial loop state of analyzeReviews. -/
def initialReviewScanState : ReviewScanState :=
  { hasUpToDateReview := [], staleReviewAuthorsByCommit := [],
    lastReviewDate := none, isChangesRequested := false,
    approvalFlags := ApprovalFlags.None }

/-- One iteration of the review loop of analyzeReviews, processing one entry
of the reversed (newest first) review log.  Entries without a commit or
without a truthy author login are skipped, as are self-reviews.  A review of
a non-head commit whose author has no more recent head-commit review is
recorded in the stale map under the abbreviated commit id, overwriting the
present entry of that commit.  The first (most recent) head-commit review of
an author updates the running last review date and the request or approval
state. -/
def reviewStep (headCommitOid : String) (prAuthor : String)
    (isOwner : String → Bool) (s : ReviewScanState) (r : Option Review) :
    ReviewScanState :=
  match r with
  | none => s
  | some r =>
    match r.commit, r.author with
    | some commit, some login =>
      if login = "" then s
      else if login = prAuthor then s
      else if commit.oid ≠ headCommitOid then
        if s.hasUpToDateReview.contains login then s
        else
          let m := mapSet s.staleReviewAuthorsByCommit commit.abbreviatedOid
            (login, r.submittedAt)
          { s with staleReviewAuthorsByCommit := m }
      else if s.hasUpToDateReview.contains login then s
      else
        let s1 :=
          { s with
            hasUpToDateReview := s.hasUpToDateReview ++ [login],
            lastReviewDate := some
              (match s.lastReviewDate with
               | some d => if d > r.submittedAt then d else r.submittedAt
               | none => r.submittedAt) }
        if r.state = .CHANGES_REQUESTED then
          { s1 with isChangesRequested := true }
        else if r.state = .APPROVED then
          { s1 with approvalFlags := s1.approvalFlags |||
              (if r.authorAssociation = .MEMBER ∨
                  r.authorAssociation = .OWNER then ApprovalFlags.Maintainer
               else if isOwner login then ApprovalFlags.Owner
               else ApprovalFlags.Other) }
        else s1
    | _, _ => s

/-- Model of analyzeReviews: fold the reversed review log through reviewStep
and package the final state (the stale map is emitted in its insertion
order). -/
def analyzeReviews (headRefOid : String) (prAuthor : String)
    (isOwner : String → Bool) (reviews : List (Option Review)) :
    ReviewAnalysis :=
  let final := reviews.reverse.foldl
    (reviewStep headRefOid prAuthor isOwner) initialReviewScanState
  { lastReviewDate := final.lastReviewDate,
    reviewersWithStaleReviews := final.staleReviewAuthorsByCommit.map
      (fun e => { reviewer := e.2.1, reviewedAbbrOid := e.1, date := e.2.2 }),
    approvalFlags := final.approvalFlags,
    isChangesRequested := final.isChangesRequested }

/-! ## Timeline extraction -/

/-- Predicate of getReopenedDate: a reopened or ready-for-review event. -/
def isReopenedOrReady : TimelineItem → Bool
  | .reopenedEvent _ => true
  | .readyForReviewEvent _ => true
  | _ => false

/-- Model of getReopenedDate: the last reopened or ready-for-review event.
The source returns the conjunction of the item, its timestamp and the Date
built from it, so an empty (falsy) timestamp collapses to the undefined
outcome exactly as it does at every use site of the source. -/
def getReopenedDate (timelineItems : List (Option TimelineItem)) :
    Option String :=
  match (findLast timelineItems (onSome isReopenedOrReady)).join with
  | some item =>
    if item.createdAtOf = "" then none else some item.createdAtOf
  | none => none

/-- Predicate of the issue-comment scan of getLastCommentishActivityDate: a
non-bot issue comment. -/
def isNonBotIssueComment (nb : Option String → Bool) : TimelineItem → Bool
  | .issueComment author _ => nb author
  | _ => false

/-- Model of getLastCommentishActivityDate: the later of the last non-bot
issue comment and the last review-thread comment with a truthy author login
(found scanning reviews newest first and comments newest first inside each
review).  The source takes the later of the two dates with a string sort. -/
def getLastCommentishActivityDate (nb : Option String → Bool)
    (timelineItems : List (Option TimelineItem))
    (reviews : List (Option Review)) : Option String :=
  let lastIssueComment :=
    (findLast timelineItems (onSome (isNonBotIssueComment nb))).join
  let lastReviewComment := forEachReverse reviews (fun review =>
    match review with
    | some review =>
      (findLast review.comments
        (onSome (fun c => c.author.getD "" ≠ ""))).join
    | none => none)
  match lastIssueComment, lastReviewComment with
  | some ic, some rc =>
    some (if ic.createdAtOf < rc.createdAt then rc.createdAt
          else ic.createdAtOf)
  | some ic, none => some ic.createdAtOf
  | none, some rc => some rc.createdAt
  | none, none => none

/-- Predicate of getLastMaintainerBlessingDate: a non-bot column move. -/
def isNonBotColumnMove (nb : Option String → Bool) : TimelineItem → Bool
  | .movedColumnsInProjectEvent actor _ => nb actor
  | _ => false

/-- Model of getLastMaintainerBlessingDate: the timestamp of the last
non-bot moved-between-project-columns event, if any. -/
def getLastMaintainerBlessingDate (nb : Option String → Bool)
    (timelineItems : List (Option TimelineItem)) : Option String :=
  ((findLast timelineItems (onSome (isNonBotColumnMove nb))).join).map
    (fun item => item.createdAtOf)

/-! ## Orchestrator pieces -/

/-- Model of getHeadCommit: the first commit node whose oid equals the head
ref oid (a null node never equals it). -/
def getHeadCommit (pr : PullRequest) : Option Commit :=
  (((noNulls pr.commits).filter
      (fun c => c.commit.oid == pr.headRefOid)).head?).map
    (fun c => c.commit)

/-- Model of getCIResult: the check suite whose app name includes the
GitHub Actions literal decides the CI result; no suite means Missing, and a
failing conclusion also captures the check URL. -/
def getCIResult (headCommit : Commit) : CIResult × Option String :=
  match (noNulls headCommit.checkSuites).find? (fun check =>
      match check.appName with
      | some nm => containsSubList "GitHub Actions".data nm.data
      | none => false) with
  | none => (.Missing, none)
  | some suite =>
    match suite.conclusion with
    | some .SUCCESS => (.Pass, none)
    | some .FAILURE => (.Fail, some suite.url)
    | some .SKIPPED => (.Fail, some suite.url)
    | some .TIMED_OUT => (.Fail, some suite.url)
    | _ => (.Pending, none)

/-- Model of authorSaysReadyToMerge: some comment whose author login equals
the PR author login (a strict JS equality, so two undefined logins agree)
and whose trimmed lower-cased body starts with the ready-to-merge
literal. -/
def authorSaysReadyToMerge (prInfo : PullRequest) : Bool :=
  (noNulls prInfo.comments).any (fun comment =>
    comment.author == prInfo.author &&
    "ready to merge".data.isPrefixOf (jsLower (jsTrimList comment.body.data)))

/-- Model of the isOwner closure of deriveStateForPR: a case-insensitive
membership test in the resolved owner list. -/
def isOwnerIn (allOwners : List String) (login : String) : Bool :=
  allOwners.any (fun k => jsLower k.data == jsLower login.data)

/-- The info payload (PrInfo of the source). -/
structure PrInfo where
  now : String
  pr_number : Nat
  headCommitOid : String
  headCommitAbbrOid : String
  authorIsOwner : Bool
  author : String
  owners : List String
  mergeIsRequested : Bool
  ciResult : CIResult
  ciUrl : Option String
  hasMergeConflict : Bool
  lastPushDate : String
  lastCommentDate : String
  lastReviewDate : Option String
  reopenedDate : Option String
  reviewersWithStaleReviews : List StaleReviewEntry
  reviewLink : String
  isChangesRequested : Bool
  approvalFlags : Nat
  dangerLevel : DangerLevel
  stalenessInDays : Int
  anyPackageIsNew : Bool
  maintainerBlessed : Bool
  hasDismissedReview : Bool
  isFirstContribution : Bool
  popularityLevel : PopularityLevel
  packages : List String
  files : List FileInfo
  deriving Repr, Inhabited

/-- The result union of deriveStateForPR: BotFail, BotError,
BotEnsureRemovedFromProject, BotNoPackages and PrInfo. -/
inductive DeriveResult where
  | fail (message : String)
  | error (pr_number : Nat) (message : String) (author : Option String)
  | remove (pr_number : Nat) (message : String)
  | no_packages (pr_number : Nat)
  | info (payload : PrInfo)
  deriving Repr, Inhabited

/-- Assembly of the info payload, mirroring the final object literal of
deriveStateForPR together with the local bindings feeding it.  The unused
approvalsByRole partition of the source (marked UNUSED there) has no
observable effect and is omitted; the partition by review state only feeds
the has-dismissed-review flag, modelled by its filter. -/
def assembleInfo (env : Env) (prInfo : PullRequest) (author : String)
    (headCommit : Commit) (categorizedFiles : List FileInfo)
    (ownerInfo : OwnerInfo) (packages : List String) : PrInfo :=
  let allOwners := ownerInfo.allOwners
  let hasDismissedReview :=
    !((noNulls prInfo.reviews).filter
        (fun r => r.state == .DISMISSED)).isEmpty
  let lastPushDate := headCommit.pushedDate
  let lastCommentDate :=
    (getLastCommentishActivityDate env.authorNotBot prInfo.timelineItems
        prInfo.reviews).getD lastPushDate
  let reopenedDate := getReopenedDate prInfo.timelineItems
  let now := env.now
  let reviewAnalysis :=
    analyzeReviews prInfo.headRefOid author (isOwnerIn allOwners)
      prInfo.reviews
  let lastBlessing :=
    getLastMaintainerBlessingDate env.authorNotBot prInfo.timelineItems
  let ci := getCIResult headCommit
  { now := now,
    pr_number := prInfo.number,
    author := author,
    owners := allOwners,
    dangerLevel := getDangerLevel categorizedFiles,
    headCommitAbbrOid := headCommit.abbreviatedOid,
    headCommitOid := headCommit.oid,
    mergeIsRequested := authorSaysReadyToMerge prInfo,
    stalenessInDays := mathMin
      (([some lastPushDate, some lastCommentDate, reopenedDate,
          reviewAnalysis.lastReviewDate]).map
        (fun date => env.daysSince (date.getD lastPushDate) now)),
    lastPushDate := lastPushDate,
    reopenedDate := reopenedDate,
    lastCommentDate := lastCommentDate,
    maintainerBlessed :=
      match lastBlessing with
      | some b => decide (lastPushDate < b)
      | none => false,
    reviewLink := "https://github.com/DefinitelyTyped/DefinitelyTyped/pull/"
      ++ toString prInfo.number ++ "/files",
    hasMergeConflict := prInfo.mergeable == .CONFLICTING,
    authorIsOwner := isOwnerIn allOwners author,
    isFirstContribution :=
      prInfo.authorAssociation == .FIRST_TIME_CONTRIBUTOR,
    popularityLevel :=
      getPopularityLevelFromDownloads (env.getDownloads packages),
    anyPackageIsNew := ownerInfo.anyPackageIsNew,
    packages := packages,
    files := categorizedFiles,
    hasDismissedReview := hasDismissedReview,
    ciResult := ci.1,
    ciUrl := ci.2,
    lastReviewDate := reviewAnalysis.lastReviewDate,
    reviewersWithStaleReviews := reviewAnalysis.reviewersWithStaleReviews,
    isChangesRequested := reviewAnalysis.isChangesRequested,
    approvalFlags := reviewAnalysis.approvalFlags }

/-- Classification of every changed file (the Promise.all of the source);
the first throw, only possible for an unparsable tslint.json, rejects the
whole step. -/
def categorizeAllFiles (env : Env) (headCommit : Commit)
    (files : List (Option FileNode)) : Except String (List FileInfo) :=
  (noNulls files).mapM (fun f =>
    categorizeFile env.jsonParse env.jsonStringify env.functionCtor f.path
      (fun _ => env.fetchFile (headCommit.oid ++ ":" ++ f.path) none))

/-- Model of deriveStateForPR: the guarded pipeline from the raw snapshot to
one of the five result variants; an uncaught platform throw (JSON.parse) is
the Except error path. -/
def deriveStateForPR (env : Env) (data : Option PullRequest) :
    Except String DeriveResult :=
  match data with
  | none => .ok (.fail "No PR with this number exists")
  | some prInfo =>
    match prInfo.author with
    | none => .ok (.error prInfo.number "PR author does not exist" none)
    | some author =>
      match getHeadCommit prInfo with
      | none =>
        .ok (.error prInfo.number "No head commit found" (some author))
      | some headCommit =>
        if prInfo.state ≠ .OPEN then
          .ok (.remove prInfo.number "PR is not active")
        else if prInfo.isDraft then
          .ok (.remove prInfo.number "PR is a draft")
        else
          match categorizeAllFiles env headCommit prInfo.files with
          | .error e => .error e
          | .ok categorizedFiles =>
            let packages := getPackagesTouched categorizedFiles
            if packages = [] then .ok (.no_packages prInfo.number)
            else
              let ownerInfo := getOwnersOfPackages env packages
              match ownerInfo.error with
              | some e => .ok (.error prInfo.number e (some author))
              | none =>
                .ok (.info (assembleInfo env prInfo author headCommit
                  categorizedFiles ownerInfo packages))

/-! ## Concrete fixtures used by witnesses and counterexamples -/

/-- A concrete collaborator environment: every file fetch finds a small
declaration header, the header parser accepts it listing one contributor,
the JSON builtin parses exactly the canonical tslint text, the clock is
fixed and every actor is human. -/
def env1 : Env :=
  { fetchFile := fun _ _ => some "// Type definitions for foo 1.0",
    jsonParse := fun s =>
      if s = "\x7b \"extends\": \"dtslint/dt.json\" \x7d" then
        .ok tslintCanonical
      else .error "Unexpected token o in JSON at position 1",
    jsonStringify := fun _ => "",
    functionCtor := fun _ => none,
    parseHeader := fun _ =>
      .ok { contributors := [{ githubUsername := some "alice" }] },
    getDownloads := fun _ => [("foo", 100)],
    daysSince := fun _ _ => 3,
    authorNotBot := fun _ => true,
    now := "2020-06-01T00:00:00.000Z" }

/-- The environment env1 with a header parser that always throws. -/
def envHdrFail : Env :=
  { env1 with parseHeader := fun _ => .error "parse error" }

/-- The head commit of the snapshot fixtures. -/
def commit1 : Commit :=
  { oid := "abc123", abbreviatedOid := "abc1",
    pushedDate := "2020-05-01T00:00:00Z", checkSuites := [] }

/-- A complete open snapshot touching one definition file of one package,
with one maintainer column move after the last push. -/
def pr1 : PullRequest :=
  { number := 42,
    author := some "bob",
    headRefOid := "abc123",
    state := .OPEN,
    isDraft := false,
    commits := [some { commit := commit1 }],
    files := [some { path := "types/foo/index.d.ts" }],
    timelineItems :=
      [some (.movedColumnsInProjectEvent (some "maint")
        "2020-05-02T00:00:00Z")],
    reviews := [],
    comments := [],
    mergeable := .MERGEABLE,
    authorAssociation := .NONE }

/-- The snapshot pr1 with a missing author. -/
def prNoAuthor : PullRequest := { pr1 with author := none }

/-- The snapshot pr1 whose head ref resolves to no known commit. -/
def prNoHead : PullRequest := { pr1 with headRefOid := "ffff00" }

/-- The snapshot pr1 in the merged state. -/
def prMerged : PullRequest := { pr1 with state := .MERGED }

/-- The snapshot pr1 as a draft. -/
def prDraft : PullRequest := { pr1 with isDraft := true }

/-- The snapshot pr1 touching only an infrastructure file, so that no
package is recognized. -/
def prNoPackages : PullRequest :=
  { pr1 with files := [some { path := "README.md" }] }

/-- The info payload derived for pr1 under env1 (the fallback of the match
is unreachable, as the witness of C1 proves). -/
def payload1 : PrInfo :=
  match deriveStateForPR env1 (some pr1) with
  | .ok (.info p) => p
  | _ => default

/-- A stale review by reviewer A on commit c1, the older one. -/
def staleReviewOld : Review :=
  { author := some "amy",
    commit := some { oid := "c1full", abbreviatedOid := "c1" },
    submittedAt := "2020-01-01T00:00:00Z",
    state := .APPROVED,
    authorAssociation := .NONE,
    comments := [] }

/-- A stale review by the same reviewer on the same commit, the newer one. -/
def staleReviewNew : Review :=
  { staleReviewOld with submittedAt := "2020-01-02T00:00:00Z" }

/-- The review log of the C2 counterexample, oldest first as in the API. -/
def staleReviewLog : List (Option Review) :=
  [some staleReviewOld, some staleReviewNew]

/-- A stale review by a second reviewer, used by the C4 witness. -/
def staleByCarl : Review :=
  { author := some "carl",
    commit := some { oid := "c1full", abbreviatedOid := "c1" },
    submittedAt := "2020-01-01T00:00:00Z",
    state := .APPROVED,
    authorAssociation := .NONE,
    comments := [] }

/-- A head-commit review, used by the C4 witness. -/
def headByAmy : Review :=
  { author := some "amy",
    commit := some { oid := "abc123", abbreviatedOid := "abc1" },
    submittedAt := "2020-02-02T00:00:00Z",
    state := .APPROVED,
    authorAssociation := .NONE,
    comments := [] }

/-- The review log of the C4 witness, oldest first as in the API. -/
def mixedReviewLog : List (Option Review) :=
  [some staleByCarl, some headByAmy]

/-- The review loop body in the orientation of List.foldr: processing the
reversed log with foldl is the same as folding the original log from the
right. -/
def reviewFoldStep (headCommitOid prAuthor : String)
    (isOwner : String → Bool) (r : Option Review) (s : ReviewScanState) :
    ReviewScanState :=
  reviewStep headCommitOid prAuthor isOwner s r

/-! ## Specification-side descriptions used by the claim statements -/

/-- Review entries that the loop of analyzeReviews does not skip: a commit, a
truthy author login, and not a self-review. -/
def relevantReview (prAuthor : String) : Option Review → Bool
  | some r =>
    match r.commit, r.author with
    | some _, some login => login ≠ "" && login ≠ prAuthor
    | _, _ => false
  | none => false

/-- Review entries that the loop does not skip and that belong to the given
reviewer. -/
def relevantReviewBy (prAuthor login : String) : Option Review → Bool
  | some r =>
    match r.commit, r.author with
    | some _, some l => l ≠ "" && l ≠ prAuthor && l = login
    | _, _ => false
  | none => false

/-- Review entries that the loop does not skip, that belong to the given
reviewer and that target the head commit. -/
def isHeadReviewBy (headCommitOid prAuthor login : String) :
    Option Review → Bool
  | some r =>
    match r.commit, r.author with
    | some commit, some l =>
      l ≠ "" && l ≠ prAuthor && l = login && commit.oid = headCommitOid
    | _, _ => false
  | none => false

/-- Declarative description of the stale entry the source keeps for a
commit: scanning the review log oldest first, the first non-skipped review
of a non-head commit with the given abbreviation whose author has no more
recent (later in the log) non-skipped review of the head commit.  This is
the oldest qualifying review of the commit. -/
def oldestQualifyingStale (headCommitOid prAuthor c : String) :
    List (Option Review) → Option (String × String)
  | [] => none
  | or :: rest =>
    match or with
    | some r =>
      match r.commit, r.author with
      | some commit, some login =>
        if login ≠ "" ∧ login ≠ prAuthor ∧ commit.oid ≠ headCommitOid ∧
            commit.abbreviatedOid = c ∧
            ¬ (rest.any (isHeadReviewBy headCommitOid prAuthor login) = true)
        then some (login, r.submittedAt)
        else oldestQualifyingStale headCommitOid prAuthor c rest
      | _, _ => oldestQualifyingStale headCommitOid prAuthor c rest
    | none => oldestQualifyingStale headCommitOid prAuthor c rest

/-- Structural reading of the regex tail (after the package slash): some
position carries a non-slash character followed either by nothing or by a
recognized suffix, and the characters before that position contain no line
feed (a lazy dot does not match one). -/
def TailMatches (r : List Char) : Prop :=
  ∃ pre ch suf, r = pre ++ ch :: suf ∧ (∀ x ∈ pre, x ≠ '\n') ∧ ch ≠ '/' ∧
    (suf = [] ∨ suf ∈ suffixAlts)

/-- Structural reading of the part after the types/ prefix: a line-feed-free
package segment, a slash, and a matching tail. -/
def SplitMatches (r : List Char) : Prop :=
  ∃ g t, r = g ++ '/' :: t ∧ (∀ x ∈ g, x ≠ '\n') ∧ TailMatches t

/-- Structural reading of the whole categorizeFile pattern: the path is
types/, a line-feed-free package segment, a slash, and a matching tail. -/
def PathMatchesPattern (path : String) : Prop :=
  ∃ g r, path.data = "types/".data ++ g ++ '/' :: r ∧
    (∀ x ∈ g, x ≠ '\n') ∧ TailMatches r

/-! ## Helper lemmas about the JS collection models -/

theorem mem_setAdd {l : List String} {a b : String} :
    a ∈ setAdd l b ↔ a ∈ l ∨ a = b := by
  unfold setAdd
  split
  · rename_i h
    rw [List.contains_eq_any_beq] at h
    simp only [List.any_eq_true, beq_iff_eq] at h
    obtain ⟨x, hx, rfl⟩ := h
    constructor
    · exact Or.inl
    · rintro (h1 | rfl) <;> assumption
  · simp

theorem nodup_setAdd {l : List String} {b : String} (h : l.Nodup) :
    (setAdd l b).Nodup := by
  unfold setAdd
  split
  · exact h
  · rename_i hc
    rw [List.contains_eq_any_beq] at hc
    simp only [List.any_eq_true, beq_iff_eq, not_exists, not_and] at hc
    have : ¬ b ∈ l := fun hb => hc b hb rfl
    simp [List.nodup_append, h, this]

theorem mem_foldl_setAdd {l : List String} {acc : List String} {a : String} :
    a ∈ l.foldl setAdd acc ↔ a ∈ acc ∨ a ∈ l := by
  induction l generalizing acc with
  | nil => simp
  | cons x xs ih =>
    simp only [List.foldl_cons, ih, mem_setAdd, List.mem_cons]
    tauto

theorem nodup_foldl_setAdd {l : List String} {acc : List String}
    (h : acc.Nodup) : (l.foldl setAdd acc).Nodup := by
  induction l generalizing acc with
  | nil => exact h
  | cons x xs ih => exact ih (nodup_setAdd h)

theorem length_foldl_setAdd_eq_dedup (l : List String) :
    (l.foldl setAdd []).length = l.dedup.length := by
  have h1 : (l.foldl setAdd []).Nodup := nodup_foldl_setAdd List.nodup_nil
  have h2 : l.dedup.Nodup := l.nodup_dedup
  have hmem : ∀ a, a ∈ l.foldl setAdd [] ↔ a ∈ l.dedup := by
    intro a
    rw [mem_foldl_setAdd, List.mem_dedup]
    simp
  have hperm : (l.foldl setAdd []).Perm l.dedup :=
    List.perm_of_nodup_nodup_toFinset_eq h1 h2
      (Finset.ext fun a => by
        simp only [List.mem_toFinset]
        exact hmem a)
  exact hperm.length_eq

theorem mapLookup_mapSet_self {m : List (String × α)} {k : String} {v : α} :
    mapLookup (mapSet m k v) k = some v := by
  induction m with
  | nil => simp [mapSet, mapLookup, List.find?_cons]
  | cons kv m ih =>
    by_cases hk : kv.1 = k
    · simp [mapSet, mapLookup, List.find?_cons, hk]
    · have hb : (kv.1 == k) = false := by simp [hk]
      simp only [mapSet, hb, Bool.false_eq_true, if_false, mapLookup,
        List.find?_cons]
      exact ih

theorem mapLookup_mapSet_ne {m : List (String × α)} {k k2 : String} {v : α}
    (h : k2 ≠ k) : mapLookup (mapSet m k v) k2 = mapLookup m k2 := by
  have hkk : (k == k2) = false := by simp [Ne.symm h]
  induction m with
  | nil => simp [mapSet, mapLookup, List.find?_cons, hkk]
  | cons kv m ih =>
    by_cases hk : kv.1 = k
    · have hb : (kv.1 == k) = true := by simp [hk]
      have hb2 : (kv.1 == k2) = false := by simp [hk, Ne.symm h]
      simp [mapSet, mapLookup, List.find?_cons, hb, hb2, hkk]
    · have hb : (kv.1 == k) = false := by simp [hk]
      by_cases hkv2 : kv.1 = k2
      · have hb2 : (kv.1 == k2) = true := by simp [hkv2]
        simp [mapSet, mapLookup, List.find?_cons, hb, hb2]
      · have hb2 : (kv.1 == k2) = false := by simp [hkv2]
        simp only [mapSet, hb, Bool.false_eq_true, if_false, mapLookup,
          List.find?_cons, hb2]
        exact ih

theorem mem_mapSet_of_ne {m : List (String × α)} {k : String} {v : α}
    {xy : String × α} (hxy : xy ∈ mapSet m k v) (hne : xy.1 ≠ k) :
    xy ∈ m := by
  induction m with
  | nil =>
    simp only [mapSet, List.mem_singleton] at hxy
    exact absurd (by rw [hxy]) hne
  | cons kv m ih =>
    by_cases hk : kv.1 = k
    · have hb : (kv.1 == k) = true := by simp [hk]
      simp only [mapSet, hb, if_true, List.mem_cons] at hxy
      rcases hxy with rfl | hmem
      · exact absurd rfl hne
      · exact List.mem_cons_of_mem _ hmem
    · have hb : (kv.1 == k) = false := by simp [hk]
      simp only [mapSet, hb, Bool.false_eq_true, if_false,
        List.mem_cons] at hxy
      rcases hxy with rfl | hmem
      · exact List.mem_cons_self _ _
      · exact List.mem_cons_of_mem _ (ih hmem)

theorem keys_nodup_mapSet {m : List (String × α)} {k : String} {v : α}
    (h : (m.map Prod.fst).Nodup) :
    ((mapSet m k v).map Prod.fst).Nodup := by
  induction m with
  | nil => simp [mapSet]
  | cons kv m ih =>
    simp only [List.map_cons, List.nodup_cons] at h
    by_cases hk : kv.1 = k
    · have hb : (kv.1 == k) = true := by simp [hk]
      simp only [mapSet, hb, if_true, List.map_cons, List.nodup_cons]
      exact ⟨by rw [← hk]; exact h.1, h.2⟩
    · have hb : (kv.1 == k) = false := by simp [hk]
      simp only [mapSet, hb, Bool.false_eq_true, if_false, List.map_cons,
        List.nodup_cons]
      refine ⟨?_, ih h.2⟩
      intro hmem
      rcases List.mem_map.mp hmem with ⟨xy, hxy, hfst⟩
      have hin := mem_mapSet_of_ne hxy (by rw [hfst]; exact hk)
      exact h.1 (List.mem_map.mpr ⟨xy, hin, hfst⟩)

theorem mem_mapLookup_of_keys_nodup {m : List (String × α)} {k : String}
    {v : α} (h : (m.map Prod.fst).Nodup) :
    (k, v) ∈ m ↔ mapLookup m k = some v := by
  induction m with
  | nil => simp [mapLookup, List.find?_nil]
  | cons kv m ih =>
    simp only [List.map_cons, List.nodup_cons] at h
    by_cases hk : kv.1 = k
    · have hb : (kv.1 == k) = true := by simp [hk]
      simp only [mapLookup, List.find?_cons, hb, List.mem_cons]
      constructor
      · rintro (rfl | hmem)
        · simp
        · exact absurd (List.mem_map.mpr ⟨(k, v), hmem, rfl⟩)
            (by rw [hk] at h; exact h.1)
      · intro hmap
        have hv : kv.2 = v := by simpa using hmap
        exact Or.inl (Prod.ext_iff.mpr ⟨hk.symm, hv.symm⟩)
    · have hb : (kv.1 == k) = false := by simp [hk]
      simp only [mapLookup, List.find?_cons, hb, List.mem_cons]
      rw [show (Option.map (fun kv => kv.2) (List.find?
          (fun kv => kv.1 == k) m)) = mapLookup m k from rfl, ← ih h.2]
      constructor
      · rintro (rfl | hmem)
        · exact absurd rfl hk
        · exact hmem
      · exact Or.inr

theorem find?_append_model {l1 l2 : List α} {p : α → Bool} :
    (l1 ++ l2).find? p =
      match l1.find? p with
      | some x => some x
      | none => l2.find? p := by
  induction l1 with
  | nil => simp
  | cons x xs ih =>
    by_cases hp : p x
    · simp [List.find?_cons, hp]
    · have hb : p x = false := by simpa using hp
      simp [List.find?_cons, hb, ih]

theorem findLast_eq_reverse_find? {l : List α} {p : α → Bool} :
    findLast l p = l.reverse.find? p := by
  induction l with
  | nil => simp [findLast]
  | cons x xs ih =>
    rw [findLast, ih, List.reverse_cons, find?_append_model]
    cases hf : xs.reverse.find? p with
    | some y => simp
    | none =>
      by_cases hp : p x
      · simp [List.find?_cons, hp]
      · have hb : p x = false := by simpa using hp
        simp [List.find?_cons, hb]

theorem noNulls_cons_none {xs : List (Option α)} :
    noNulls (none :: xs) = noNulls xs := by
  simp [noNulls]

theorem noNulls_cons_some {a : α} {xs : List (Option α)} :
    noNulls (some a :: xs) = a :: noNulls xs := by
  simp [noNulls]

theorem findLast_onSome {l : List (Option α)} {p : α → Bool} :
    findLast l (onSome p) = ((noNulls l).reverse.find? p).map some := by
  induction l with
  | nil => simp [findLast, noNulls]
  | cons x xs ih =>
    rw [findLast, ih]
    cases x with
    | none =>
      rw [noNulls_cons_none]
      cases hf : (noNulls xs).reverse.find? p <;> simp [hf, onSome]
    | some a =>
      rw [noNulls_cons_some, List.reverse_cons, find?_append_model]
      cases hf : (noNulls xs).reverse.find? p with
      | some y => simp [hf]
      | none =>
        by_cases hp : p a
        · simp [hf, List.find?_cons, hp, onSome]
        · have hb : p a = false := by simpa using hp
          simp [hf, List.find?_cons, hb, onSome]

theorem blessingDate_char {nb : Option String → Bool}
    {items : List (Option TimelineItem)} :
    getLastMaintainerBlessingDate nb items =
      ((noNulls items).reverse.find? (isNonBotColumnMove nb)).map
        (fun it => it.createdAtOf) := by
  unfold getLastMaintainerBlessingDate
  rw [findLast_onSome]
  cases (noNulls items).reverse.find? (isNonBotColumnMove nb) <;> simp

theorem popularityLoop_critical {l : List (String × Int)}
    {acc : PopularityLevel} (h : acc ≠ .Critical) :
    popularityLoop acc l = .Critical ↔
      ∃ e ∈ l, e.2 > CriticalPopularityThreshold := by
  induction l generalizing acc with
  | nil => simpa [popularityLoop] using h
  | cons e rest ih =>
    obtain ⟨q, d⟩ := e
    rw [popularityLoop,
      List.exists_mem_cons_iff (fun e : String × Int => e.2 > CriticalPopularityThreshold)]
    by_cases h1 : d > CriticalPopularityThreshold
    · simp [if_pos h1, h1]
    · by_cases h2 : d > NormalPopularityThreshold
      · rw [if_neg h1, if_pos h2, ih (by simp)]
        simp [h1]
      · rw [if_neg h1, if_neg h2, ih h]
        simp [h1]

theorem popularityLoop_popular {l : List (String × Int)}
    {acc : PopularityLevel} (h : acc ≠ .Critical) :
    popularityLoop acc l = .Popular ↔
      (¬ ∃ e ∈ l, e.2 > CriticalPopularityThreshold) ∧
        (acc = .Popular ∨ ∃ e ∈ l, e.2 > NormalPopularityThreshold) := by
  induction l generalizing acc with
  | nil => simp [popularityLoop]
  | cons e rest ih =>
    obtain ⟨q, d⟩ := e
    rw [popularityLoop,
      List.exists_mem_cons_iff (fun e : String × Int => e.2 > CriticalPopularityThreshold),
      List.exists_mem_cons_iff (fun e : String × Int => e.2 > NormalPopularityThreshold)]
    by_cases h1 : d > CriticalPopularityThreshold
    · simp [if_pos h1, h1]
    · by_cases h2 : d > NormalPopularityThreshold
      · rw [if_neg h1, if_pos h2, ih (by simp)]
        simp [h1, h2]
      · rw [if_neg h1, if_neg h2, ih h]
        simp [h1, h2]

/-- C5: for every list of classified files the danger level is the
highest-priority match in the fixed order infrastructure present, zero
packages, multiple packages, not-OK configuration file, test file, untested;
stated as equality of getDangerLevel with the specification-side function,
together with the particular consequence that one infrastructure file plus
one scoped test file always yields Infrastructure. -/
theorem C5_danger_level_precedence :
    (∀ files : List FileInfo, getDangerLevel files = dangerLevelSpec files) ∧
    (∀ f1 f2 : FileInfo, f1.kind = .infrastructure → f2.kind = .test →
      getDangerLevel [f1, f2] = .Infrastructure) := by
  constructor
  · intro files
    simp only [getDangerLevel, dangerLevelSpec, getPackagesTouched,
      length_foldl_setAdd_eq_dedup]
  · intro f1 f2 h1 _
    simp [getDangerLevel, h1]

/-- Witness for C5 at a concrete infrastructure file and scoped test
file. -/
theorem C5_danger_level_precedence_witness :
    getDangerLevel
      [{ path := "tsconfig.json", kind := .infrastructure, package := none },
       { path := "types/foo/foo-tests.ts", kind := .test,
         package := some "foo" }] = .Infrastructure :=
  C5_danger_level_precedence.2
    { path := "tsconfig.json", kind := .infrastructure, package := none }
    { path := "types/foo/foo-tests.ts", kind := .test,
      package := some "foo" } rfl rfl

/-- C6: the popularity level is Critical exactly when some package exceeds
5000000 downloads, otherwise Popular exactly when some package exceeds
200000, otherwise the lowest tier; and adding a package above the critical
threshold to any download mapping yields Critical. -/
theorem C6_popularity_thresholds :
    (∀ l : List (String × Int),
      (getPopularityLevelFromDownloads l = .Critical ↔
        ∃ e ∈ l, e.2 > 5000000)) ∧
    (∀ l : List (String × Int),
      (getPopularityLevelFromDownloads l = .Popular ↔
        (¬ ∃ e ∈ l, e.2 > 5000000) ∧ ∃ e ∈ l, e.2 > 200000)) ∧
    (∀ l : List (String × Int),
      (getPopularityLevelFromDownloads l = .wellLiked ↔
        (¬ ∃ e ∈ l, e.2 > 5000000) ∧ ¬ ∃ e ∈ l, e.2 > 200000)) ∧
    (∀ (l1 l2 : List (String × Int)) (q : String) (d : Int), d > 5000000 →
      getPopularityLevelFromDownloads (l1 ++ (q, d) :: l2) = .Critical) := by
  have hcrit : ∀ l : List (String × Int),
      (getPopularityLevelFromDownloads l = .Critical ↔
        ∃ e ∈ l, e.2 > 5000000) := fun l =>
    popularityLoop_critical (by simp)
  have hpop : ∀ l : List (String × Int),
      (getPopularityLevelFromDownloads l = .Popular ↔
        (¬ ∃ e ∈ l, e.2 > 5000000) ∧ ∃ e ∈ l, e.2 > 200000) := by
    intro l
    rw [getPopularityLevelFromDownloads, popularityLoop_popular (by simp)]
    simp only [NormalPopularityThreshold, CriticalPopularityThreshold]
    constructor
    · rintro ⟨hno, hacc | hex⟩
      · exact absurd hacc (by simp)
      · exact ⟨hno, hex⟩
    · rintro ⟨hno, hex⟩
      exact ⟨hno, Or.inr hex⟩
  refine ⟨hcrit, hpop, ?_, ?_⟩
  · intro l
    constructor
    · intro hwl
      have h1 : getPopularityLevelFromDownloads l ≠ .Critical := by
        rw [hwl]; simp
      have h2 : getPopularityLevelFromDownloads l ≠ .Popular := by
        rw [hwl]; simp
      rw [Ne, hcrit l] at h1
      rw [Ne, hpop l] at h2
      refine ⟨h1, fun hex => h2 ⟨h1, hex⟩⟩
    · rintro ⟨h1, h2⟩
      cases hres : getPopularityLevelFromDownloads l with
      | wellLiked => rfl
      | Popular => exact absurd ((hpop l).mp hres).2 h2
      | Critical => exact absurd ((hcrit l).mp hres) h1
  · intro l1 l2 q d hd
    rw [hcrit]
    exact ⟨(q, d), by simp, hd⟩

/-- Witness for C6 at a concrete mapping: a critical package dominates two
modest ones. -/
theorem C6_popularity_thresholds_witness :
    getPopularityLevelFromDownloads
      ([("a", 17)] ++ ("b", 5000001) :: [("c", 300000)]) = .Critical :=
  C6_popularity_thresholds.2.2.2 [("a", 17)] [("c", 300000)] "b" 5000001
    (by norm_num)

theorem categorizeFile_nonmatch {jp : String → Except String JsValue}
    {js : JsValue → String} {fc : String → Option String} {path : String}
    {gc : Unit → Option String} (hp : parsePath path = none) :
    categorizeFile jp js fc path gc =
      .ok { path := path, kind := .infrastructure, package := none } := by
  unfold categorizeFile
  rw [hp]

theorem categorizeFile_config {jp : String → Except String JsValue}
    {js : JsValue → String} {fc : String → Option String}
    {path pkg : String} {gc : Unit → Option String}
    (hp : parsePath path = some (pkg, none)) :
    categorizeFile jp js fc path gc =
      (configOK jp js fc path gc).map (fun ok =>
        { path := path,
          kind := if ok then .packageMetaOk else .packageMeta,
          package := some pkg }) := by
  unfold categorizeFile
  rw [hp]
  rfl

/-- C3 counterexample: a matching configuration path (tslint.json) whose
content does not parse as JSON makes classification throw the parse error
instead of degrading to the package-meta kind; moreover a configuration
path whose basename hits a function property (types/foo/name) throws a
TypeError, and one whose basename hits an inherited prototype method
(types/foo/toString) classifies package-meta-ok, never package-meta. -/
theorem C3_counterexample :
    categorizeFile env1.jsonParse env1.jsonStringify env1.functionCtor
      "types/foo/tslint.json" (fun _ => some "not json") =
      .error "Unexpected token o in JSON at position 1" ∧
    categorizeFile env1.jsonParse env1.jsonStringify env1.functionCtor
      "types/foo/tslint.json" (fun _ => some "not json") ≠
      .ok { path := "types/foo/tslint.json", kind := .packageMeta,
            package := some "foo" } ∧
    categorizeFile env1.jsonParse env1.jsonStringify env1.functionCtor
      "types/foo/name" (fun _ => some "export const x = 1") =
      .error "TypeError: configOK[basename] is not a function" ∧
    categorizeFile env1.jsonParse env1.jsonStringify env1.functionCtor
      "types/foo/toString" (fun _ => some "export const x = 1") =
      .ok { path := "types/foo/toString", kind := .packageMetaOk,
            package := some "foo" } := by
  refine ⟨rfl, fun h => ?_, rfl, rfl⟩
  rw [show categorizeFile env1.jsonParse env1.jsonStringify
      env1.functionCtor "types/foo/tslint.json"
      (fun _ => some "not json") =
      .error "Unexpected token o in JSON at position 1" from rfl] at h
  exact Except.noConfusion h

/-- C3 amended: for configuration files (a matching path with no recognized
suffix): a basename that is no property of the registry function object
(neither a registered validator nor a function or prototype property found
by the JS in operator) degrades to the package-meta (not OK) kind without
consulting the content; missing content degrades likewise; OTHER_FILES.txt
content failing validation degrades without an exception; but malformed or
unlucky content can raise: tslint.json content that fails JSON parsing
propagates the parse error out of classification, a basename hitting the
non-callable function properties name or length throws a TypeError, and a
basename hitting the inherited methods toString or valueOf classifies
package-meta-ok regardless of content. -/
theorem C3_config_validation_errors :
    (∀ (jp : String → Except String JsValue) (js : JsValue → String)
       (fc : String → Option String) (path pkg : String)
       (gc : Unit → Option String),
      parsePath path = some (pkg, none) →
      configOKStringKeys.contains (basenameOf path) = false →
      categorizeFile jp js fc path gc =
        .ok { path := path, kind := .packageMeta, package := some pkg }) ∧
    (∀ (jp : String → Except String JsValue) (js : JsValue → String)
       (fc : String → Option String) (path pkg : String)
       (gc : Unit → Option String),
      parsePath path = some (pkg, none) → gc () = none →
      categorizeFile jp js fc path gc =
        .ok { path := path, kind := .packageMeta, package := some pkg }) ∧
    (∀ (jp : String → Except String JsValue) (js : JsValue → String)
       (fc : String → Option String) (path pkg text : String)
       (gc : Unit → Option String),
      parsePath path = some (pkg, none) →
      basenameOf path = "OTHER_FILES.txt" → gc () = some text →
      categorizeFile jp js fc path gc =
        .ok { path := path,
              kind := if otherFilesOK text then .packageMetaOk
                      else .packageMeta,
              package := some pkg }) ∧
    (∀ (jp : String → Except String JsValue) (js : JsValue → String)
       (fc : String → Option String) (path pkg text e : String)
       (gc : Unit → Option String),
      parsePath path = some (pkg, none) →
      basenameOf path = "tslint.json" → gc () = some text →
      jp text = .error e →
      categorizeFile jp js fc path gc = .error e) ∧
    (∀ (jp : String → Except String JsValue) (js : JsValue → String)
       (fc : String → Option String) (path pkg text : String)
       (gc : Unit → Option String),
      parsePath path = some (pkg, none) →
      (basenameOf path = "name" ∨ basenameOf path = "length") →
      gc () = some text →
      categorizeFile jp js fc path gc =
        .error "TypeError: configOK[basename] is not a function") ∧
    (∀ (jp : String → Except String JsValue) (js : JsValue → String)
       (fc : String → Option String) (path pkg text : String)
       (gc : Unit → Option String),
      parsePath path = some (pkg, none) →
      (basenameOf path = "toString" ∨ basenameOf path = "valueOf") →
      gc () = some text →
      categorizeFile jp js fc path gc =
        .ok { path := path, kind := .packageMetaOk,
              package := some pkg }) := by
  refine ⟨?_, ?_, ?_, ?_, ?_, ?_⟩
  · intro jp js fc path pkg gc hp hb
    rw [categorizeFile_config hp]
    unfold configOK
    rw [hb]
    simp [Except.map]
  · intro jp js fc path pkg gc hp hgc
    rw [categorizeFile_config hp]
    unfold configOK
    split
    · rw [hgc]
      simp [Except.map]
    · simp [Except.map]
  · intro jp js fc path pkg text gc hp hb hgc
    rw [categorizeFile_config hp]
    unfold configOK
    rw [hb, hgc]
    simp [configOKApply, Except.map,
      show ("OTHER_FILES.txt" : String) ∈ configOKStringKeys by decide]
  · intro jp js fc path pkg text e gc hp hb hgc hjp
    rw [categorizeFile_config hp]
    unfold configOK
    rw [hb, hgc]
    simp [configOKApply, tslintOK, hjp, Except.map,
      show ("tslint.json" : String) ∈ configOKStringKeys by decide]
  · intro jp js fc path pkg text gc hp hb hgc
    rw [categorizeFile_config hp]
    unfold configOK
    rcases hb with hb | hb
    · rw [hb, hgc]
      simp [configOKApply, Except.map,
        show ("name" : String) ∈ configOKStringKeys by decide]
    · rw [hb, hgc]
      simp [configOKApply, Except.map,
        show ("length" : String) ∈ configOKStringKeys by decide]
  · intro jp js fc path pkg text gc hp hb hgc
    rw [categorizeFile_config hp]
    unfold configOK
    rcases hb with hb | hb
    · rw [hb, hgc]
      simp [configOKApply, Except.map,
        show ("toString" : String) ∈ configOKStringKeys by decide]
    · rw [hb, hgc]
      simp [configOKApply, Except.map,
        show ("valueOf" : String) ∈ configOKStringKeys by decide]

/-- Witness for the C3 amended theorem: a concrete OTHER_FILES.txt whose
content fails validation degrades to package-meta without an exception,
and a concrete basename off the property list degrades without consulting
the content. -/
theorem C3_config_validation_errors_witness :
    categorizeFile env1.jsonParse env1.jsonStringify env1.functionCtor
      "types/foo/OTHER_FILES.txt" (fun _ => some "") =
      .ok { path := "types/foo/OTHER_FILES.txt",
            kind := if otherFilesOK "" then .packageMetaOk
                    else .packageMeta,
            package := some "foo" } ∧
    categorizeFile env1.jsonParse env1.jsonStringify env1.functionCtor
      "types/foo/package.json" (fun _ => some "anything") =
      .ok { path := "types/foo/package.json", kind := .packageMeta,
            package := some "foo" } :=
  ⟨C3_config_validation_errors.2.2.1 env1.jsonParse env1.jsonStringify
     env1.functionCtor "types/foo/OTHER_FILES.txt" "foo" ""
     (fun _ => some "") rfl rfl rfl,
   C3_config_validation_errors.1 env1.jsonParse env1.jsonStringify
     env1.functionCtor "types/foo/package.json" "foo"
     (fun _ => some "anything") rfl rfl⟩

theorem contains_iff_mem_alts {cs : List Char} :
    suffixAlts.contains cs = true ↔ cs ∈ suffixAlts := by
  rw [List.contains_eq_any_beq]
  simp only [List.any_eq_true, beq_iff_eq]
  constructor
  · rintro ⟨x, hx, rfl⟩
    exact hx
  · intro hx
    exact ⟨cs, hx, rfl⟩

theorem findTail_none_iff {r : List Char} :
    findTail r = none ↔ ¬ TailMatches r := by
  induction r with
  | nil =>
    simp only [findTail, TailMatches, true_iff]
    rintro ⟨pre, ch, suf, heq, -, -, -⟩
    exact List.noConfusion (List.append_eq_nil.mp heq.symm).2
  | cons c cs ih =>
    rw [findTail]
    by_cases h1 : c ≠ '/' ∧ suffixAlts.contains cs
    · rw [if_pos h1]
      have ht : TailMatches (c :: cs) :=
        ⟨[], c, cs, rfl, by simp, h1.1,
          Or.inr (contains_iff_mem_alts.mp h1.2)⟩
      simp [ht]
    · rw [if_neg h1]
      by_cases h2 : c ≠ '/' ∧ cs = []
      · rw [if_pos h2]
        have ht : TailMatches (c :: cs) :=
          ⟨[], c, cs, rfl, by simp, h2.1, Or.inl h2.2⟩
        simp [ht]
      · rw [if_neg h2]
        by_cases h3 : c = '\n'
        · rw [if_pos h3]
          simp only [true_iff]
          rintro ⟨pre, ch, suf, heq, hpre, hch, hsuf⟩
          cases pre with
          | nil =>
            simp only [List.nil_append, List.cons.injEq] at heq
            rcases hsuf with rfl | hmem
            · rw [heq.2] at h2
              exact h2 ⟨by rw [heq.1]; exact hch, rfl⟩
            · rw [heq.2] at h1
              exact h1 ⟨by rw [heq.1]; exact hch,
                contains_iff_mem_alts.mpr hmem⟩
          | cons p ps =>
            simp only [List.cons_append, List.cons.injEq] at heq
            exact hpre p (List.mem_cons_self p ps) (heq.1.symm ▸ h3)
        · rw [if_neg h3, ih]
          push_neg at h3
          constructor
          · intro hnot hT
            rcases hT with ⟨pre, ch, suf, heq, hpre, hch, hsuf⟩
            cases pre with
            | nil =>
              simp only [List.nil_append, List.cons.injEq] at heq
              rcases hsuf with rfl | hmem
              · exact h2 ⟨heq.1 ▸ hch, heq.2⟩
              · exact h1 ⟨heq.1 ▸ hch,
                  heq.2 ▸ contains_iff_mem_alts.mpr hmem⟩
            | cons p ps =>
              simp only [List.cons_append, List.cons.injEq] at heq
              exact hnot ⟨ps, ch, suf, heq.2, fun x hx =>
                hpre x (List.mem_cons_of_mem p hx), hch, hsuf⟩
          · intro hnot hT
            rcases hT with ⟨pre, ch, suf, heq, hpre, hch, hsuf⟩
            refine hnot ⟨c :: pre, ch, suf, by rw [heq, List.cons_append],
              ?_, hch, hsuf⟩
            intro x hx
            rcases List.mem_cons.mp hx with rfl | hx
            · exact h3
            · exact hpre x hx

theorem findSplit_none_iff {r : List Char} :
    findSplit r = none ↔ ¬ SplitMatches r := by
  induction r with
  | nil =>
    simp only [findSplit, SplitMatches, true_iff]
    rintro ⟨g, t, heq, -, -⟩
    exact List.noConfusion (List.append_eq_nil.mp heq.symm).2
  | cons c cs ih =>
    rw [findSplit]
    by_cases h1 : c = '/'
    · rw [if_pos h1]
      cases hf : findTail cs with
      | some ext =>
        have hT : TailMatches cs := by
          by_contra hx
          rw [← findTail_none_iff] at hx
          rw [hf] at hx
          exact Option.noConfusion hx
        have hS : SplitMatches (c :: cs) :=
          ⟨[], cs, by rw [h1]; rfl, by simp, hT⟩
        simp [hS]
      | none =>
        have hnT : ¬ TailMatches cs := findTail_none_iff.mp hf
        rw [Option.map_eq_none', ih]
        constructor
        · intro hnot hS
          rcases hS with ⟨g, t, heq, hg, ht⟩
          cases g with
          | nil =>
            simp only [List.nil_append, List.cons.injEq] at heq
            exact hnT (heq.2 ▸ ht)
          | cons p ps =>
            simp only [List.cons_append, List.cons.injEq] at heq
            exact hnot ⟨ps, t, heq.2, fun x hx =>
              hg x (List.mem_cons_of_mem p hx), ht⟩
        · intro hnot hS
          rcases hS with ⟨g, t, heq, hg, ht⟩
          refine hnot ⟨c :: g, t, by rw [heq, List.cons_append], ?_, ht⟩
          intro x hx
          rcases List.mem_cons.mp hx with rfl | hx
          · rw [h1]
            decide
          · exact hg x hx
    · by_cases h2 : c = '\n'
      · rw [if_neg h1, if_pos h2]
        simp only [true_iff]
        rintro ⟨g, t, heq, hg, -⟩
        cases g with
        | nil =>
          simp only [List.nil_append, List.cons.injEq] at heq
          exact h1 heq.1
        | cons p ps =>
          simp only [List.cons_append, List.cons.injEq] at heq
          exact hg p (List.mem_cons_self p ps) (heq.1.symm ▸ h2)
      · rw [if_neg h1, if_neg h2, Option.map_eq_none', ih]
        constructor
        · intro hnot hS
          rcases hS with ⟨g, t, heq, hg, ht⟩
          cases g with
          | nil =>
            simp only [List.nil_append, List.cons.injEq] at heq
            exact h1 heq.1
          | cons p ps =>
            simp only [List.cons_append, List.cons.injEq] at heq
            exact hnot ⟨ps, t, heq.2, fun x hx =>
              hg x (List.mem_cons_of_mem p hx), ht⟩
        · intro hnot hS
          rcases hS with ⟨g, t, heq, hg, ht⟩
          refine hnot ⟨c :: g, t, by rw [heq, List.cons_append], ?_, ht⟩
          intro x hx
          rcases List.mem_cons.mp hx with rfl | hx
          · exact h2
          · exact hg x hx

theorem parsePath_none_iff {path : String} :
    parsePath path = none ↔ ¬ PathMatchesPattern path := by
  unfold parsePath
  by_cases hp : "types/".data.isPrefixOf path.data
  · rw [if_pos hp, Option.map_eq_none', findSplit_none_iff]
    obtain ⟨rest, hrest⟩ :=
      (List.isPrefixOf_iff_prefix.mp hp)
    have hdrop : path.data.drop 6 = rest := by
      rw [← hrest, show (6 : Nat) = "types/".data.length from rfl,
        List.drop_left]
    rw [hdrop]
    constructor
    · intro hnot hP
      rcases hP with ⟨g, r, heq, hg, ht⟩
      refine hnot ⟨g, r, ?_, hg, ht⟩
      have h0 := hrest.trans heq
      rw [List.append_assoc] at h0
      exact List.append_cancel_left h0
    · intro hnot hS
      rcases hS with ⟨g, t, heq, hg, ht⟩
      exact hnot ⟨g, t, by rw [← hrest, heq, List.append_assoc], hg, ht⟩
  · rw [if_neg hp]
    simp only [true_iff]
    rintro ⟨g, r, heq, -, -⟩
    exact hp (List.isPrefixOf_iff_prefix.mpr ⟨g ++ '/' :: r, heq.symm⟩)

/-- C9: classification is infrastructure with no package for exactly the
paths that do not match the structural package pattern, independently of the
file content (so the lazy content accessor is never consulted for such a
path): parsePath failure is equivalent to the structural non-match, and on
failure categorizeFile returns the infrastructure record for every content
accessor. -/
theorem C9_nonmatching_paths_infrastructure :
    (∀ path : String, parsePath path = none ↔ ¬ PathMatchesPattern path) ∧
    (∀ (path : String) (jp : String → Except String JsValue)
       (js : JsValue → String) (fc : String → Option String)
       (gc gc2 : Unit → Option String),
      parsePath path = none →
      categorizeFile jp js fc path gc =
        .ok { path := path, kind := .infrastructure, package := none } ∧
      categorizeFile jp js fc path gc =
        categorizeFile jp js fc path gc2) := by
  refine ⟨fun _ => parsePath_none_iff, ?_⟩
  intro path jp js fc gc gc2 hp
  rw [categorizeFile_nonmatch hp, categorizeFile_nonmatch hp]
  exact ⟨rfl, rfl⟩

/-- Witness for C9 at a concrete non-matching path with two different
content accessors. -/
theorem C9_nonmatching_paths_infrastructure_witness :
    categorizeFile env1.jsonParse env1.jsonStringify env1.functionCtor
      "README.md" (fun _ => some "anything") =
      .ok { path := "README.md", kind := .infrastructure,
            package := none } ∧
    categorizeFile env1.jsonParse env1.jsonStringify env1.functionCtor
      "README.md" (fun _ => some "anything") =
      categorizeFile env1.jsonParse env1.jsonStringify env1.functionCtor
        "README.md" (fun _ => none) :=
  C9_nonmatching_paths_infrastructure.2 "README.md" env1.jsonParse
    env1.jsonStringify env1.functionCtor (fun _ => some "anything")
    (fun _ => none) rfl

/-- C1: deriveStateForPR evaluates its terminal outcomes in strict
precedence order, each a hard stop: missing PR, missing author, missing head
commit, non-open state, draft state, zero packages, owner-header parse
failure, and finally the assembled info payload. -/
theorem C1_derive_precedence :
    (∀ env : Env, deriveStateForPR env none =
      .ok (.fail "No PR with this number exists")) ∧
    (∀ (env : Env) (p : PullRequest), p.author = none →
      deriveStateForPR env (some p) =
        .ok (.error p.number "PR author does not exist" none)) ∧
    (∀ (env : Env) (p : PullRequest) (a : String), p.author = some a →
      getHeadCommit p = none →
      deriveStateForPR env (some p) =
        .ok (.error p.number "No head commit found" (some a))) ∧
    (∀ (env : Env) (p : PullRequest) (a : String) (hc : Commit),
      p.author = some a → getHeadCommit p = some hc → p.state ≠ .OPEN →
      deriveStateForPR env (some p) =
        .ok (.remove p.number "PR is not active")) ∧
    (∀ (env : Env) (p : PullRequest) (a : String) (hc : Commit),
      p.author = some a → getHeadCommit p = some hc → p.state = .OPEN →
      p.isDraft = true →
      deriveStateForPR env (some p) =
        .ok (.remove p.number "PR is a draft")) ∧
    (∀ (env : Env) (p : PullRequest) (a : String) (hc : Commit)
       (cfs : List FileInfo),
      p.author = some a → getHeadCommit p = some hc → p.state = .OPEN →
      p.isDraft = false → categorizeAllFiles env hc p.files = .ok cfs →
      getPackagesTouched cfs = [] →
      deriveStateForPR env (some p) = .ok (.no_packages p.number)) ∧
    (∀ (env : Env) (p : PullRequest) (a : String) (hc : Commit)
       (cfs : List FileInfo) (msg : String),
      p.author = some a → getHeadCommit p = some hc → p.state = .OPEN →
      p.isDraft = false → categorizeAllFiles env hc p.files = .ok cfs →
      getPackagesTouched cfs ≠ [] →
      (getOwnersOfPackages env (getPackagesTouched cfs)).error = some msg →
      deriveStateForPR env (some p) =
        .ok (.error p.number msg (some a))) ∧
    (∀ (env : Env) (p : PullRequest) (a : String) (hc : Commit)
       (cfs : List FileInfo),
      p.author = some a → getHeadCommit p = some hc → p.state = .OPEN →
      p.isDraft = false → categorizeAllFiles env hc p.files = .ok cfs →
      getPackagesTouched cfs ≠ [] →
      (getOwnersOfPackages env (getPackagesTouched cfs)).error = none →
      deriveStateForPR env (some p) =
        .ok (.info (assembleInfo env p a hc cfs
          (getOwnersOfPackages env (getPackagesTouched cfs))
          (getPackagesTouched cfs)))) := by
  refine ⟨fun env => rfl, ?_, ?_, ?_, ?_, ?_, ?_, ?_⟩
  · intro env p ha
    simp [deriveStateForPR, ha]
  · intro env p a ha hh
    simp [deriveStateForPR, ha, hh]
  · intro env p a hc ha hh hs
    simp [deriveStateForPR, ha, hh, hs]
  · intro env p a hc ha hh hs hd
    simp [deriveStateForPR, ha, hh, hs, hd]
  · intro env p a hc cfs ha hh hs hd hcf hpk
    simp [deriveStateForPR, ha, hh, hs, hd, hcf, hpk]
  · intro env p a hc cfs msg ha hh hs hd hcf hpk herr
    simp [deriveStateForPR, ha, hh, hs, hd, hcf, hpk, herr]
  · intro env p a hc cfs ha hh hs hd hcf hpk herr
    simp [deriveStateForPR, ha, hh, hs, hd, hcf, hpk, herr]

/-- Witness for C1 on concrete snapshots: one per terminal outcome. -/
theorem C1_derive_precedence_witness :
    deriveStateForPR env1 none =
      .ok (.fail "No PR with this number exists") ∧
    deriveStateForPR env1 (some prNoAuthor) =
      .ok (.error 42 "PR author does not exist" none) ∧
    deriveStateForPR env1 (some prNoHead) =
      .ok (.error 42 "No head commit found" (some "bob")) ∧
    deriveStateForPR env1 (some prMerged) =
      .ok (.remove 42 "PR is not active") ∧
    deriveStateForPR env1 (some prDraft) =
      .ok (.remove 42 "PR is a draft") ∧
    deriveStateForPR env1 (some prNoPackages) =
      .ok (.no_packages 42) ∧
    deriveStateForPR env1 (some pr1) =
      .ok (.info (assembleInfo env1 pr1 "bob" commit1
        [{ path := "types/foo/index.d.ts", kind := .definition,
           package := some "foo" }]
        (getOwnersOfPackages env1 (getPackagesTouched
          [{ path := "types/foo/index.d.ts", kind := .definition,
             package := some "foo" }]))
        (getPackagesTouched
          [{ path := "types/foo/index.d.ts", kind := .definition,
             package := some "foo" }]))) :=
  ⟨C1_derive_precedence.1 env1,
   C1_derive_precedence.2.1 env1 prNoAuthor rfl,
   C1_derive_precedence.2.2.1 env1 prNoHead "bob" rfl rfl,
   C1_derive_precedence.2.2.2.1 env1 prMerged "bob" commit1 rfl rfl
     (by decide),
   C1_derive_precedence.2.2.2.2.1 env1 prDraft "bob" commit1 rfl rfl rfl
     rfl,
   C1_derive_precedence.2.2.2.2.2.1 env1 prNoPackages "bob" commit1
     [{ path := "README.md", kind := .infrastructure, package := none }]
     rfl rfl rfl rfl rfl rfl,
   C1_derive_precedence.2.2.2.2.2.2.2 env1 pr1 "bob" commit1
     [{ path := "types/foo/index.d.ts", kind := .definition,
        package := some "foo" }]
     rfl rfl rfl rfl rfl (by decide) rfl⟩

/-- C7: owner resolution walks the touched packages sequentially; a missing
entry declaration file marks the any-package-is-new flag and contributes no
owners without an error; a header-parser throw stops the loop at once (later
packages are irrelevant) with the message of the source, and in that case
deriveStateForPR surfaces the error variant; a successful parse accumulates
the contributor handles into the deduplicated owner set. -/
theorem C7_owner_resolution :
    (∀ (env : Env) (p : String) (ps : List String) (acc : List String)
       (anyNew : Bool), getOwnersForPackage env p = .ok none →
      ownersLoop env (p :: ps) acc anyNew = ownersLoop env ps acc true) ∧
    (∀ (env : Env) (p : String) (ps ps2 : List String) (acc : List String)
       (anyNew : Bool) (e : String), getOwnersForPackage env p = .error e →
      ownersLoop env (p :: ps) acc anyNew =
        { anyPackageIsNew := anyNew, allOwners := acc,
          error := some ("error parsing owners: " ++ e) } ∧
      ownersLoop env (p :: ps) acc anyNew =
        ownersLoop env (p :: ps2) acc anyNew) ∧
    (∀ (env : Env) (p : String) (ps : List String)
       (acc owners : List String) (anyNew : Bool),
      getOwnersForPackage env p = .ok (some owners) →
      ownersLoop env (p :: ps) acc anyNew =
        ownersLoop env ps (owners.foldl setAdd acc) anyNew ∧
      (∀ o, o ∈ owners.foldl setAdd acc ↔ o ∈ acc ∨ o ∈ owners) ∧
      (acc.Nodup → (owners.foldl setAdd acc).Nodup)) ∧
    (∀ (env : Env) (p : PullRequest) (a : String) (hc : Commit)
       (cfs : List FileInfo) (msg : String),
      p.author = some a → getHeadCommit p = some hc → p.state = .OPEN →
      p.isDraft = false → categorizeAllFiles env hc p.files = .ok cfs →
      getPackagesTouched cfs ≠ [] →
      (getOwnersOfPackages env (getPackagesTouched cfs)).error = some msg →
      deriveStateForPR env (some p) =
        .ok (.error p.number msg (some a))) := by
  refine ⟨?_, ?_, ?_, ?_⟩
  · intro env p ps acc anyNew h
    simp [ownersLoop, h]
  · intro env p ps ps2 acc anyNew e h
    constructor <;> simp [ownersLoop, h]
  · intro env p ps acc owners anyNew h
    exact ⟨by simp [ownersLoop, h], fun o => mem_foldl_setAdd,
      fun hn => nodup_foldl_setAdd hn⟩
  · intro env p a hc cfs msg ha hh hs hd hcf hpk herr
    simp [deriveStateForPR, ha, hh, hs, hd, hcf, hpk, herr]

/-- Witness for C7: a concrete snapshot whose header parser throws yields
the error variant with the message of the source, and a concrete absent
file marks the package as new. -/
theorem C7_owner_resolution_witness :
    deriveStateForPR envHdrFail (some pr1) =
      .ok (.error 42 "error parsing owners: parse error" (some "bob")) ∧
    ownersLoop { env1 with fetchFile := fun _ _ => none } ["foo"] [] false =
      ownersLoop { env1 with fetchFile := fun _ _ => none } [] [] true :=
  ⟨C7_owner_resolution.2.2.2 envHdrFail pr1 "bob" commit1
     [{ path := "types/foo/index.d.ts", kind := .definition,
        package := some "foo" }]
     "error parsing owners: parse error" rfl rfl rfl rfl rfl (by decide)
     rfl,
   C7_owner_resolution.1 { env1 with fetchFile := fun _ _ => none } "foo"
     [] [] false rfl⟩

theorem derive_info_inversion {env : Env} {p : PullRequest}
    {payload : PrInfo}
    (h : deriveStateForPR env (some p) = .ok (.info payload)) :
    ∃ a hc cfs, p.author = some a ∧ getHeadCommit p = some hc ∧
      p.state = .OPEN ∧ p.isDraft = false ∧
      categorizeAllFiles env hc p.files = .ok cfs ∧
      getPackagesTouched cfs ≠ [] ∧
      (getOwnersOfPackages env (getPackagesTouched cfs)).error = none ∧
      payload = assembleInfo env p a hc cfs
        (getOwnersOfPackages env (getPackagesTouched cfs))
        (getPackagesTouched cfs) := by
  cases ha : p.author with
  | none =>
    rw [show deriveStateForPR env (some p) =
        .ok (.error p.number "PR author does not exist" none) by
      simp [deriveStateForPR, ha]] at h
    exact absurd h (by simp)
  | some a =>
    cases hh : getHeadCommit p with
    | none =>
      rw [show deriveStateForPR env (some p) =
          .ok (.error p.number "No head commit found" (some a)) by
        simp [deriveStateForPR, ha, hh]] at h
      exact absurd h (by simp)
    | some hc =>
      by_cases hs : p.state = .OPEN
      case neg =>
        rw [show deriveStateForPR env (some p) =
            .ok (.remove p.number "PR is not active") by
          simp [deriveStateForPR, ha, hh, hs]] at h
        exact absurd h (by simp)
      case pos =>
      by_cases hd : p.isDraft = true
      case pos =>
        rw [show deriveStateForPR env (some p) =
            .ok (.remove p.number "PR is a draft") by
          simp [deriveStateForPR, ha, hh, hs, hd]] at h
        exact absurd h (by simp)
      case neg =>
      have hd2 : p.isDraft = false := by simpa using hd
      cases hcf : categorizeAllFiles env hc p.files with
      | error e =>
        rw [show deriveStateForPR env (some p) = .error e by
          simp [deriveStateForPR, ha, hh, hs, hd2, hcf]] at h
        exact absurd h (by simp)
      | ok cfs =>
        by_cases hpk : getPackagesTouched cfs = []
        case pos =>
          rw [show deriveStateForPR env (some p) =
              .ok (.no_packages p.number) by
            simp [deriveStateForPR, ha, hh, hs, hd2, hcf, hpk]] at h
          exact absurd h (by simp)
        case neg =>
        cases herr :
            (getOwnersOfPackages env (getPackagesTouched cfs)).error with
        | some e =>
          rw [show deriveStateForPR env (some p) =
              .ok (.error p.number e (some a)) by
            simp [deriveStateForPR, ha, hh, hs, hd2, hcf, hpk, herr]] at h
          exact absurd h (by simp)
        | none =>
          rw [show deriveStateForPR env (some p) =
              .ok (.info (assembleInfo env p a hc cfs
                (getOwnersOfPackages env (getPackagesTouched cfs))
                (getPackagesTouched cfs))) by
            simp [deriveStateForPR, ha, hh, hs, hd2, hcf, hpk, herr]] at h
          refine ⟨a, hc, cfs, rfl, rfl, hs, hd2, hcf, hpk, herr, ?_⟩
          have h1 := (Except.ok.injEq _ _).mp h
          exact ((DeriveResult.info.injEq _ _).mp h1).symm

/-- C8: for every info result the staleness in days is the minimum of
days-since-now over the last push date, the last comment date, the reopened
date and the last review date, where a missing date falls back to the last
push date. -/
theorem C8_staleness_min :
    ∀ (env : Env) (p : PullRequest) (payload : PrInfo),
      deriveStateForPR env (some p) = .ok (.info payload) →
      payload.stalenessInDays =
        min (min (min (env.daysSince payload.lastPushDate payload.now)
              (env.daysSince payload.lastCommentDate payload.now))
            (env.daysSince (payload.reopenedDate.getD payload.lastPushDate)
              payload.now))
          (env.daysSince (payload.lastReviewDate.getD payload.lastPushDate)
            payload.now) := by
  intro env p payload h
  obtain ⟨a, hc, cfs, -, -, -, -, -, -, -, hpayload⟩ :=
    derive_info_inversion h
  subst hpayload
  simp [assembleInfo, mathMin]

/-- Witness for C8 on the concrete snapshot pr1 under env1. -/
theorem C8_staleness_min_witness :
    deriveStateForPR env1 (some pr1) = .ok (.info payload1) ∧
    payload1.stalenessInDays =
      min (min (min (env1.daysSince payload1.lastPushDate payload1.now)
            (env1.daysSince payload1.lastCommentDate payload1.now))
          (env1.daysSince (payload1.reopenedDate.getD payload1.lastPushDate)
            payload1.now))
        (env1.daysSince (payload1.lastReviewDate.getD payload1.lastPushDate)
          payload1.now) :=
  ⟨rfl, C8_staleness_min env1 pr1 payload1 rfl⟩

/-- C10: for every info result, maintainerBlessed holds exactly when the
most recent non-bot moved-between-project-columns event exists and its
timestamp is strictly greater than the last push date. -/
theorem C10_maintainer_blessed :
    ∀ (env : Env) (p : PullRequest) (payload : PrInfo),
      deriveStateForPR env (some p) = .ok (.info payload) →
      (payload.maintainerBlessed = true ↔
        ∃ e : TimelineItem,
          (noNulls p.timelineItems).reverse.find?
            (isNonBotColumnMove env.authorNotBot) = some e ∧
          payload.lastPushDate < e.createdAtOf) := by
  intro env p payload h
  obtain ⟨a, hc, cfs, -, -, -, -, -, -, -, hpayload⟩ :=
    derive_info_inversion h
  subst hpayload
  simp only [assembleInfo, blessingDate_char]
  cases hf : (noNulls p.timelineItems).reverse.find?
      (isNonBotColumnMove env.authorNotBot) with
  | none => simp
  | some e => simp

/-- Witness for C10 on the concrete snapshot pr1 under env1 (the fixture
has one non-bot column move dated after the last push). -/
theorem C10_maintainer_blessed_witness :
    deriveStateForPR env1 (some pr1) = .ok (.info payload1) ∧
    (payload1.maintainerBlessed = true ↔
      ∃ e : TimelineItem,
        (noNulls pr1.timelineItems).reverse.find?
          (isNonBotColumnMove env1.authorNotBot) = some e ∧
        payload1.lastPushDate < e.createdAtOf) :=
  ⟨rfl, C10_maintainer_blessed env1 pr1 payload1 rfl⟩

theorem contains_iff_mem_beq [BEq α] [LawfulBEq α] {l : List α} {a : α} :
    l.contains a = true ↔ a ∈ l := by
  rw [List.contains_eq_any_beq]
  simp only [List.any_eq_true, beq_iff_eq]
  constructor
  · rintro ⟨x, hx, rfl⟩
    exact hx
  · intro hx
    exact ⟨a, hx, rfl⟩

theorem analyzeReviews_foldr {headCommitOid prAuthor : String}
    {isOwner : String → Bool} {reviews : List (Option Review)} :
    reviews.reverse.foldl (reviewStep headCommitOid prAuthor isOwner)
        initialReviewScanState =
      reviews.foldr (reviewFoldStep headCommitOid prAuthor isOwner)
        initialReviewScanState := by
  rw [List.foldl_reverse]
  rfl

theorem foldr_reviewStep_upToDate {headCommitOid prAuthor : String}
    {isOwner : String → Bool} (reviews : List (Option Review))
    (login : String) :
    ((reviews.foldr (reviewFoldStep headCommitOid prAuthor isOwner)
        initialReviewScanState).hasUpToDateReview.contains login = true) ↔
      reviews.any (isHeadReviewBy headCommitOid prAuthor login) = true := by
  induction reviews with
  | nil => simp [initialReviewScanState]
  | cons or rest ih =>
    rw [List.foldr_cons, List.any_cons, Bool.or_eq_true]
    cases or with
    | none =>
      rw [show isHeadReviewBy headCommitOid prAuthor login none = false
        from rfl]
      simp only [Bool.false_eq_true, false_or]
      exact ih
    | some r =>
      cases hcm : r.commit with
      | none =>
        have hstep : ∀ s : ReviewScanState,
            reviewFoldStep headCommitOid prAuthor isOwner (some r) s = s :=
          fun s => by simp [reviewFoldStep, reviewStep, hcm]
        have hH : isHeadReviewBy headCommitOid prAuthor login (some r)
            = false := by simp [isHeadReviewBy, hcm]
        rw [hstep, hH]
        simp only [Bool.false_eq_true, false_or]
        exact ih
      | some cm =>
        cases hau : r.author with
        | none =>
          have hstep : ∀ s : ReviewScanState,
              reviewFoldStep headCommitOid prAuthor isOwner (some r) s
                = s :=
            fun s => by simp [reviewFoldStep, reviewStep, hcm, hau]
          have hH : isHeadReviewBy headCommitOid prAuthor login (some r)
              = false := by simp [isHeadReviewBy, hcm, hau]
          rw [hstep, hH]
          simp only [Bool.false_eq_true, false_or]
          exact ih
        | some l =>
          have hH : (isHeadReviewBy headCommitOid prAuthor login (some r)
              = true) ↔
              (l ≠ "" ∧ l ≠ prAuthor ∧ l = login ∧
                cm.oid = headCommitOid) := by
            simp [isHeadReviewBy, hcm, hau, and_assoc]
          rw [hH]
          by_cases h1 : l = ""
          · have hstep : ∀ s : ReviewScanState,
                reviewFoldStep headCommitOid prAuthor isOwner (some r) s
                  = s :=
              fun s => by simp [reviewFoldStep, reviewStep, hcm, hau, h1]
            have hno : ¬ (l ≠ "" ∧ l ≠ prAuthor ∧ l = login ∧
                cm.oid = headCommitOid) := fun hx => hx.1 h1
            rw [hstep]
            simp only [hno, false_or]
            exact ih
          · by_cases h2 : l = prAuthor
            · have hstep : ∀ s : ReviewScanState,
                  reviewFoldStep headCommitOid prAuthor isOwner (some r) s
                    = s :=
                fun s => by
                  simp [reviewFoldStep, reviewStep, hcm, hau, h1, h2]
              have hno : ¬ (l ≠ "" ∧ l ≠ prAuthor ∧ l = login ∧
                  cm.oid = headCommitOid) := fun hx => hx.2.1 h2
              rw [hstep]
              simp only [hno, false_or]
              exact ih
            · by_cases h3 : cm.oid = headCommitOid
              case neg =>
                have hstep : ∀ s : ReviewScanState,
                    (reviewFoldStep headCommitOid prAuthor isOwner (some r)
                      s).hasUpToDateReview = s.hasUpToDateReview := by
                  intro s
                  simp only [reviewFoldStep, reviewStep, hcm, hau,
                    if_neg h1, if_neg h2, if_pos h3]
                  split <;> rfl
                have hno : ¬ (l ≠ "" ∧ l ≠ prAuthor ∧ l = login ∧
                    cm.oid = headCommitOid) := fun hx => h3 hx.2.2.2
                rw [hstep]
                simp only [hno, false_or]
                exact ih
              case pos =>
                have hcond : (l ≠ "" ∧ l ≠ prAuthor ∧ l = login ∧
                    cm.oid = headCommitOid) ↔ l = login := by
                  simp [h1, h2, h3]
                rw [hcond]
                have hnh : ¬ cm.oid ≠ headCommitOid := by
                  rw [h3]
                  simp
                by_cases h4 : (rest.foldr
                    (reviewFoldStep headCommitOid prAuthor isOwner)
                    initialReviewScanState).hasUpToDateReview.contains l
                    = true
                · have hstep : reviewFoldStep headCommitOid prAuthor
                      isOwner (some r) (rest.foldr (reviewFoldStep
                        headCommitOid prAuthor isOwner)
                        initialReviewScanState) =
                      rest.foldr (reviewFoldStep headCommitOid prAuthor
                        isOwner) initialReviewScanState := by
                    simp only [reviewFoldStep, reviewStep, hcm, hau,
                      if_neg h1, if_neg h2, if_neg hnh, if_pos h4]
                  rw [hstep]
                  by_cases h5 : l = login
                  · subst h5
                    exact iff_of_true h4 (Or.inl rfl)
                  · simp only [h5, false_or]
                    exact ih
                · have hstep : (reviewFoldStep headCommitOid prAuthor
                      isOwner (some r) (rest.foldr (reviewFoldStep
                        headCommitOid prAuthor isOwner)
                        initialReviewScanState)).hasUpToDateReview =
                      (rest.foldr (reviewFoldStep headCommitOid prAuthor
                        isOwner)
                        initialReviewScanState).hasUpToDateReview ++ [l]
                      := by
                    simp only [reviewFoldStep, reviewStep, hcm, hau,
                      if_neg h1, if_neg h2, if_neg hnh, if_neg h4]
                    split
                    · rfl
                    · split <;> rfl
                  rw [hstep, contains_iff_mem_beq, List.mem_append,
                    List.mem_singleton, ← contains_iff_mem_beq, ih]
                  constructor
                  · rintro (hx | rfl)
                    · exact Or.inr hx
                    · exact Or.inl rfl
                  · rintro (rfl | hx)
                    · exact Or.inr rfl
                    · exact Or.inl hx

theorem foldr_reviewStep_staleMap {headCommitOid prAuthor : String}
    {isOwner : String → Bool} (reviews : List (Option Review))
    (c : String) :
    mapLookup ((reviews.foldr
        (reviewFoldStep headCommitOid prAuthor isOwner)
        initialReviewScanState).staleReviewAuthorsByCommit) c =
      oldestQualifyingStale headCommitOid prAuthor c reviews := by
  induction reviews with
  | nil => simp [initialReviewScanState, oldestQualifyingStale, mapLookup]
  | cons or rest ih =>
    rw [List.foldr_cons]
    cases or with
    | none =>
      rw [oldestQualifyingStale]
      simpa [reviewFoldStep, reviewStep] using ih
    | some r =>
      cases hcm : r.commit with
      | none =>
        rw [oldestQualifyingStale, hcm]
        simpa [reviewFoldStep, reviewStep, hcm] using ih
      | some cm =>
        cases hau : r.author with
        | none =>
          rw [oldestQualifyingStale, hcm, hau]
          simpa [reviewFoldStep, reviewStep, hcm, hau] using ih
        | some l =>
          rw [oldestQualifyingStale, hcm, hau]
          simp only [reviewFoldStep, reviewStep, hcm, hau]
          by_cases h1 : l = ""
          · simp [h1, ih]
          · by_cases h2 : l = prAuthor
            · simp [h1, h2, ih]
            · by_cases h3 : cm.oid ≠ headCommitOid
              · simp only [if_neg h1, if_neg h2, if_pos h3]
                by_cases h5 : rest.any
                    (isHeadReviewBy headCommitOid prAuthor l) = true
                · have hcon : (rest.foldr (reviewFoldStep headCommitOid
                      prAuthor isOwner)
                      initialReviewScanState).hasUpToDateReview.contains l
                      = true :=
                    (foldr_reviewStep_upToDate rest l).mpr h5
                  rw [if_pos hcon,
                    if_neg (by
                      rintro ⟨-, -, -, -, hno⟩
                      exact hno h5)]
                  exact ih
                · have hcon : (rest.foldr (reviewFoldStep headCommitOid
                      prAuthor isOwner)
                      initialReviewScanState).hasUpToDateReview.contains l
                      = false := by
                    rw [Bool.eq_false_iff]
                    intro hx
                    exact h5 ((foldr_reviewStep_upToDate rest l).mp hx)
                  rw [hcon]
                  simp only [Bool.false_eq_true, if_false]
                  by_cases h6 : cm.abbreviatedOid = c
                  · rw [if_pos ⟨h1, h2, h3, h6, fun hx => h5 hx⟩]
                    subst h6
                    exact mapLookup_mapSet_self
                  · rw [if_neg (by
                      rintro ⟨-, -, -, h6x, -⟩
                      exact h6 h6x)]
                    rw [mapLookup_mapSet_ne (fun hx => h6 hx.symm)]
                    exact ih
              · push_neg at h3
                rw [if_neg (show ¬ (l ≠ "" ∧ l ≠ prAuthor ∧
                    cm.oid ≠ headCommitOid ∧ cm.abbreviatedOid = c ∧
                    ¬ rest.any (isHeadReviewBy headCommitOid prAuthor l)
                      = true)
                  from fun hx => hx.2.2.1 h3)]
                simp only [if_neg h1, if_neg h2,
                  if_neg (show ¬ cm.oid ≠ headCommitOid by rw [h3]; simp)]
                split
                · exact ih
                · split
                  · simpa using ih
                  · split
                    · simpa using ih
                    · simpa using ih

theorem foldr_reviewStep_keys_nodup {headCommitOid prAuthor : String}
    {isOwner : String → Bool} (reviews : List (Option Review)) :
    (((reviews.foldr (reviewFoldStep headCommitOid prAuthor isOwner)
        initialReviewScanState).staleReviewAuthorsByCommit).map
        Prod.fst).Nodup := by
  induction reviews with
  | nil => simp [initialReviewScanState]
  | cons or rest ih =>
    rw [List.foldr_cons]
    cases or with
    | none => exact ih
    | some r =>
      cases hcm : r.commit with
      | none => simpa [reviewFoldStep, reviewStep, hcm] using ih
      | some cm =>
        cases hau : r.author with
        | none => simpa [reviewFoldStep, reviewStep, hcm, hau] using ih
        | some l =>
          simp only [reviewFoldStep, reviewStep, hcm, hau]
          by_cases h1 : l = ""
          · simpa [h1] using ih
          · by_cases h2 : l = prAuthor
            · simpa [h1, h2] using ih
            · by_cases h3 : cm.oid ≠ headCommitOid
              · simp only [if_neg h1, if_neg h2, if_pos h3]
                split
                · exact ih
                · exact keys_nodup_mapSet ih
              · simp only [if_neg h1, if_neg h2, if_neg h3]
                split
                · exact ih
                · split
                  · simpa using ih
                  · split
                    · simpa using ih
                    · simpa using ih

theorem find?_map_model {l : List α} {f : α → β} {p : β → Bool} :
    (l.map f).find? p = (l.find? (fun a => p (f a))).map f := by
  induction l with
  | nil => simp
  | cons x xs ih =>
    by_cases hp : p (f x)
    · simp [List.find?_cons, hp]
    · have hb : p (f x) = false := by simpa using hp
      simp [List.find?_cons, hb, ih]

theorem find?_key_eq_mapLookup {m : List (String × α)} {c : String} :
    m.find? (fun kv => kv.1 == c) =
      (mapLookup m c).map (fun v => (c, v)) := by
  induction m with
  | nil => simp [mapLookup]
  | cons kv m ih =>
    by_cases hk : kv.1 = c
    · have hb : (kv.1 == c) = true := by simp [hk]
      simp only [mapLookup, List.find?_cons, hb, Option.map_some]
      exact congrArg some (Prod.ext_iff.mpr ⟨hk, rfl⟩)
    · have hb : (kv.1 == c) = false := by simp [hk]
      simp only [mapLookup, List.find?_cons, hb]
      exact ih

/-- C2 counterexample: two stale reviews by the same author on the same
commit.  The claim predicts that the first qualifying review encountered in
reverse order (the most recent, dated 2020-01-02) wins and is not replaced;
the code keeps the older one (dated 2020-01-01) because Map.set overwrites
the entry of the commit. -/
theorem C2_counterexample :
    (analyzeReviews "abc123" "bob" (fun _ => false)
      staleReviewLog).reviewersWithStaleReviews =
      [{ reviewer := "amy", reviewedAbbrOid := "c1",
         date := "2020-01-01T00:00:00Z" }] ∧
    (analyzeReviews "abc123" "bob" (fun _ => false)
      staleReviewLog).reviewersWithStaleReviews ≠
      [{ reviewer := "amy", reviewedAbbrOid := "c1",
         date := "2020-01-02T00:00:00Z" }] := by
  constructor
  · rfl
  · intro h
    have h2 := (List.cons.injEq _ _ _ _).mp
      ((rfl :
        (analyzeReviews "abc123" "bob" (fun _ => false)
          staleReviewLog).reviewersWithStaleReviews =
        [{ reviewer := "amy", reviewedAbbrOid := "c1",
           date := "2020-01-01T00:00:00Z" }]).symm.trans h)
    have h3 := (StaleReviewEntry.mk.injEq _ _ _ _ _ _).mp h2.1
    exact absurd h3.2.2 (by decide)

/-- C2 amended: for every commit abbreviation, the stale entry the
reconciler keeps is the oldest qualifying review of that commit (the last
qualifying review encountered in the newest-to-oldest scan), because the
stale map is keyed by commit alone and each qualifying review overwrites
the entry of its commit; qualifying still means a non-skipped non-self
review of a non-head commit whose author has no more recent review of the
head commit. -/
theorem C2_stale_review_overwrite :
    ∀ (headCommitOid prAuthor : String) (isOwner : String → Bool)
      (reviews : List (Option Review)) (c : String),
      ((analyzeReviews headCommitOid prAuthor isOwner
          reviews).reviewersWithStaleReviews.find?
        (fun e => e.reviewedAbbrOid == c)) =
      (oldestQualifyingStale headCommitOid prAuthor c reviews).map
        (fun ld => { reviewer := ld.1, reviewedAbbrOid := c,
                     date := ld.2 }) := by
  intro headCommitOid prAuthor isOwner reviews c
  show ((reviews.reverse.foldl
      (reviewStep headCommitOid prAuthor isOwner)
      initialReviewScanState).staleReviewAuthorsByCommit.map
      (fun e => ({ reviewer := e.2.1, reviewedAbbrOid := e.1,
                   date := e.2.2 } : StaleReviewEntry))).find?
      (fun e => e.reviewedAbbrOid == c) = _
  rw [analyzeReviews_foldr, find?_map_model]
  rw [show (fun e : String × String × String =>
      ({ reviewer := e.2.1, reviewedAbbrOid := e.1,
         date := e.2.2 } : StaleReviewEntry).reviewedAbbrOid == c) =
      (fun kv : String × String × String => kv.1 == c) from rfl]
  rw [find?_key_eq_mapLookup, foldr_reviewStep_staleMap]
  cases oldestQualifyingStale headCommitOid prAuthor c reviews with
  | none => rfl
  | some ld => rfl

theorem oldestQualifying_decomposition {headCommitOid prAuthor c : String} :
    ∀ {reviews : List (Option Review)} {l d : String},
      oldestQualifyingStale headCommitOid prAuthor c reviews =
        some (l, d) →
      ∃ pre r suf, reviews = pre ++ some r :: suf ∧
        r.author = some l ∧
        (∃ cm, r.commit = some cm ∧ cm.abbreviatedOid = c ∧
          cm.oid ≠ headCommitOid) ∧
        r.submittedAt = d ∧ l ≠ "" ∧ l ≠ prAuthor ∧
        suf.any (isHeadReviewBy headCommitOid prAuthor l) = false := by
  intro reviews
  induction reviews with
  | nil => intro l d h; exact absurd h (by simp [oldestQualifyingStale])
  | cons or rest ih =>
    intro l d h
    cases or with
    | none =>
      rw [oldestQualifyingStale] at h
      obtain ⟨pre, r, suf, hsplit, hrest⟩ := ih h
      exact ⟨none :: pre, r, suf, by rw [hsplit]; rfl, hrest⟩
    | some r0 =>
      cases hcm : r0.commit with
      | none =>
        rw [oldestQualifyingStale, hcm] at h
        obtain ⟨pre, r, suf, hsplit, hrest⟩ := ih h
        exact ⟨some r0 :: pre, r, suf, by rw [hsplit]; rfl, hrest⟩
      | some cm =>
        cases hau : r0.author with
        | none =>
          rw [oldestQualifyingStale, hcm, hau] at h
          obtain ⟨pre, r, suf, hsplit, hrest⟩ := ih h
          exact ⟨some r0 :: pre, r, suf, by rw [hsplit]; rfl, hrest⟩
        | some l0 =>
          rw [oldestQualifyingStale, hcm, hau] at h
          simp only [] at h
          by_cases hcond : l0 ≠ "" ∧ l0 ≠ prAuthor ∧
              cm.oid ≠ headCommitOid ∧ cm.abbreviatedOid = c ∧
              ¬ rest.any (isHeadReviewBy headCommitOid prAuthor l0) = true
          · rw [if_pos hcond] at h
            have hl : l0 = l := ((Prod.ext_iff.mp
              (Option.some_inj.mp h))).1
            have hd : r0.submittedAt = d := ((Prod.ext_iff.mp
              (Option.some_inj.mp h))).2
            subst hl
            refine ⟨[], r0, rest, rfl, hau, ⟨cm, hcm, hcond.2.2.2.1,
              hcond.2.2.1⟩, hd, hcond.1, hcond.2.1, ?_⟩
            rw [Bool.eq_false_iff]
            exact hcond.2.2.2.2
          · rw [if_neg hcond] at h
            obtain ⟨pre, r, suf, hsplit, hrest⟩ := ih h
            exact ⟨some r0 :: pre, r, suf, by rw [hsplit]; rfl, hrest⟩

theorem stale_entry_decomposition {headCommitOid prAuthor : String}
    {isOwner : String → Bool} {reviews : List (Option Review)}
    {e : StaleReviewEntry}
    (he : e ∈ (analyzeReviews headCommitOid prAuthor isOwner
      reviews).reviewersWithStaleReviews) :
    ∃ pre r suf, reviews = pre ++ some r :: suf ∧
      r.author = some e.reviewer ∧
      (∃ cm, r.commit = some cm ∧ cm.abbreviatedOid = e.reviewedAbbrOid ∧
        cm.oid ≠ headCommitOid) ∧
      r.submittedAt = e.date ∧ e.reviewer ≠ "" ∧ e.reviewer ≠ prAuthor ∧
      suf.any (isHeadReviewBy headCommitOid prAuthor e.reviewer)
        = false := by
  have he2 : e ∈ ((reviews.foldr
      (reviewFoldStep headCommitOid prAuthor isOwner)
      initialReviewScanState).staleReviewAuthorsByCommit.map
      (fun kv => ({ reviewer := kv.2.1, reviewedAbbrOid := kv.1,
                    date := kv.2.2 } : StaleReviewEntry))) := by
    have : (analyzeReviews headCommitOid prAuthor isOwner
        reviews).reviewersWithStaleReviews =
        ((reviews.foldr (reviewFoldStep headCommitOid prAuthor isOwner)
          initialReviewScanState).staleReviewAuthorsByCommit.map
          (fun kv => ({ reviewer := kv.2.1, reviewedAbbrOid := kv.1,
                        date := kv.2.2 } : StaleReviewEntry))) := by
      show ((reviews.reverse.foldl
          (reviewStep headCommitOid prAuthor isOwner)
          initialReviewScanState).staleReviewAuthorsByCommit.map _) = _
      rw [analyzeReviews_foldr]
    rw [← this]
    exact he
  obtain ⟨kv, hkv, hconv⟩ := List.mem_map.mp he2
  have hlk : mapLookup ((reviews.foldr
      (reviewFoldStep headCommitOid prAuthor isOwner)
      initialReviewScanState).staleReviewAuthorsByCommit) kv.1 =
      some kv.2 :=
    (mem_mapLookup_of_keys_nodup
      (foldr_reviewStep_keys_nodup reviews)).mp
      (by exact (Prod.ext_iff.mpr ⟨rfl, rfl⟩ : kv = (kv.1, kv.2)) ▸ hkv)
  rw [foldr_reviewStep_staleMap] at hlk
  have hq := @oldestQualifying_decomposition headCommitOid prAuthor kv.1
    reviews kv.2.1 kv.2.2 (by rw [hlk])
  have hrev : e.reviewer = kv.2.1 := by rw [← hconv]
  have habbr : e.reviewedAbbrOid = kv.1 := by rw [← hconv]
  have hdate : e.date = kv.2.2 := by rw [← hconv]
  rw [hrev, habbr, hdate]
  exact hq

/-- C4: a reviewer whose most recent non-skipped review (one with a commit
and a truthy author login, not a self-review) targets the head commit never
appears in the stale-review list; and every stale entry comes from a review
of a non-head commit by that reviewer with no later head-commit review by
the same reviewer in the log. -/
theorem C4_current_reviewers_never_stale :
    (∀ (headCommitOid prAuthor : String) (isOwner : String → Bool)
       (reviews : List (Option Review)) (login : String) (rr : Review),
      reviews.reverse.find? (relevantReviewBy prAuthor login) =
        some (some rr) →
      (∃ cm, rr.commit = some cm ∧ cm.oid = headCommitOid) →
      ∀ e ∈ (analyzeReviews headCommitOid prAuthor isOwner
          reviews).reviewersWithStaleReviews, e.reviewer ≠ login) ∧
    (∀ (headCommitOid prAuthor : String) (isOwner : String → Bool)
       (reviews : List (Option Review)) (e : StaleReviewEntry),
      e ∈ (analyzeReviews headCommitOid prAuthor isOwner
          reviews).reviewersWithStaleReviews →
      ∃ pre r suf, reviews = pre ++ some r :: suf ∧
        r.author = some e.reviewer ∧
        (∃ cm, r.commit = some cm ∧
          cm.abbreviatedOid = e.reviewedAbbrOid ∧
          cm.oid ≠ headCommitOid) ∧
        r.submittedAt = e.date ∧
        suf.any (isHeadReviewBy headCommitOid prAuthor e.reviewer)
          = false) := by
  constructor
  · intro headCommitOid prAuthor isOwner reviews login rr hfind hhead e
      he heq
    obtain ⟨pre, r, suf, hsplit, hauth, ⟨cm0, hcm0, -, hoid⟩, -, hne1,
      hne2, hany⟩ := stale_entry_decomposition he
    rw [heq] at hauth hne1 hne2 hany
    rw [hsplit, List.reverse_append, List.reverse_cons,
      List.append_assoc, find?_append_model] at hfind
    cases hsf : suf.reverse.find? (relevantReviewBy prAuthor login) with
    | some or2 =>
      rw [hsf] at hfind
      simp only [] at hfind
      have hmem : or2 ∈ suf.reverse := List.mem_of_find?_eq_some hsf
      have hrel : relevantReviewBy prAuthor login or2 = true :=
        List.find?_some hsf
      rw [Option.some_inj.mp hfind] at hmem hrel
      obtain ⟨cm2, hcm2, hoid2⟩ := hhead
      have hrel2 : ∃ l2, rr.author = some l2 ∧ l2 ≠ "" ∧
          l2 ≠ prAuthor ∧ l2 = login := by
        cases ha2 : rr.author with
        | none => rw [relevantReviewBy, hcm2, ha2] at hrel; exact
            absurd hrel (by simp)
        | some l2 =>
          rw [relevantReviewBy, hcm2, ha2] at hrel
          simp only [Bool.and_eq_true, decide_eq_true_eq,
            Bool.not_eq_true', decide_eq_false_iff_not] at hrel
          exact ⟨l2, rfl, hrel.1.1, hrel.1.2, hrel.2⟩
      obtain ⟨l2, ha2, hl1, hl2, rfl⟩ := hrel2
      have hheadrev : isHeadReviewBy headCommitOid prAuthor l2
          (some rr) = true := by
        rw [isHeadReviewBy, hcm2, ha2]
        simp [hl1, hl2, hoid2]
      have : suf.any (isHeadReviewBy headCommitOid prAuthor l2)
          = true :=
        List.any_eq_true.mpr ⟨some rr, List.mem_reverse.mp hmem,
          hheadrev⟩
      rw [hany] at this
      exact Bool.noConfusion this
    | none =>
      rw [hsf] at hfind
      simp only [] at hfind
      have hpr : relevantReviewBy prAuthor login (some r) = true := by
        rw [relevantReviewBy, hcm0, hauth]
        simp [hne1, hne2]
      rw [List.singleton_append, List.find?_cons, hpr] at hfind
      have hr : r = rr := Option.some_inj.mp (Option.some_inj.mp hfind)
      obtain ⟨cm2, hcm2, hoid2⟩ := hhead
      rw [← hr, hcm0] at hcm2
      exact hoid (Option.some_inj.mp hcm2 ▸ hoid2)
  · intro headCommitOid prAuthor isOwner reviews e he
    obtain ⟨pre, r, suf, hsplit, hauth, hcm, hdate, -, -, hany⟩ :=
      stale_entry_decomposition he
    exact ⟨pre, r, suf, hsplit, hauth, hcm, hdate, hany⟩

/-- Witness for C4: in a log holding a stale review by carl and a later
head-commit review by amy, the stale entry (which belongs to carl) is not
amy. -/
theorem C4_current_reviewers_never_stale_witness :
    ({ reviewer := "carl", reviewedAbbrOid := "c1",
       date := "2020-01-01T00:00:00Z" } : StaleReviewEntry).reviewer ≠
      "amy" :=
  C4_current_reviewers_never_stale.1 "abc123" "bob" (fun _ => false)
    mixedReviewLog "amy" headByAmy rfl
    ⟨{ oid := "abc123", abbreviatedOid := "abc1" }, rfl, rfl⟩
    { reviewer := "carl", reviewedAbbrOid := "c1",
      date := "2020-01-01T00:00:00Z" }
    (by decide)

end DTMergebot
